import Mathlib

/-!
Verification development for the Marketing Attribution ETL framework.

The definitions below are shallow embeddings of the repository's core logic:
- the journey batcher (`group_by_conversion_id`, `create_chunks` in
  `src/api/ihc_api.py`),
- the submission loop (`send_transformed_data` in `src/api/ihc_api.py`),
- the response reconciler and loader (`load_attribution_results` in
  `src/etl/load.py`), over a small model of JSON values and of the
  Python coercions the loader applies,
- the channel aggregation query (`aggregate_channel_metrics` in
  `src/etl/reporting.py`), embedded as list-relational operations.

Theorems about these definitions settle the frozen claims C1..C10.
-/

namespace MAEF

/-- A journey entry as consumed by the batcher: the batcher only reads the
`conversion_id` field; the remaining payload is kept abstract. -/
structure JEntry where
  conversion_id : String
  payload : String := ""
deriving DecidableEq, Repr

/-- One step of Python's `journeys.setdefault(conv_id, []).append(session)`
over an insertion-ordered dict modelled as an association list. -/
def insertGrouped (gs : List (String × List JEntry)) (k : String) (e : JEntry) :
    List (String × List JEntry) :=
  match gs with
  | [] => [(k, [e])]
  | (k', es) :: rest =>
      if k' = k then (k', es ++ [e]) :: rest else (k', es) :: insertGrouped rest k e

/-- `IHCApiClient.group_by_conversion_id`: group sessions by conversion id,
preserving first-seen order of conversion ids. -/
def group_by_conversion_id (data : List JEntry) : List (String × List JEntry) :=
  data.foldl (fun gs s => insertGrouped gs s.conversion_id s) []

def MAX_JOURNEYS_PER_REQUEST : Nat := 85
def MAX_SESSIONS_PER_REQUEST : Nat := 2750

/-- Loop state of `create_chunks`: emitted chunks, the chunk under
construction, and the two running counters. -/
structure ChunkState where
  chunks : List (List JEntry)
  current_chunk : List JEntry
  current_sessions : Nat
  current_journeys : Nat
deriving DecidableEq, Repr

/-- Body of the `for conv_id, sessions in journeys.items()` loop of
`create_chunks`: flush the current chunk when adding the group would
exceed either limit, then append the group unconditionally. -/
def chunkStep (st : ChunkState) (g : String × List JEntry) : ChunkState :=
  let st' :=
    if st.current_journeys + 1 > MAX_JOURNEYS_PER_REQUEST ∨
       st.current_sessions + g.2.length > MAX_SESSIONS_PER_REQUEST then
      { chunks := if st.current_chunk = [] then st.chunks else st.chunks ++ [st.current_chunk],
        current_chunk := [], current_sessions := 0, current_journeys := 0 }
    else st
  { chunks := st'.chunks,
    current_chunk := st'.current_chunk ++ g.2,
    current_sessions := st'.current_sessions + g.2.length,
    current_journeys := st'.current_journeys + 1 }

/-- `IHCApiClient.create_chunks`. -/
def create_chunks (data : List JEntry) : List (List JEntry) :=
  let st := (group_by_conversion_id data).foldl chunkStep ⟨[], [], 0, 0⟩
  if st.current_chunk = [] then st.chunks else st.chunks ++ [st.current_chunk]


/-!
JSON model for the reconciler (`DataLoader.load_attribution_results`).
Values are modelled to the nesting depth the loader inspects: primitive
values, flattened candidate entries, and top-level response items.
-/

/-- A primitive JSON value. -/
inductive JPrim where
  | str (s : String)
  | num (q : ℚ)
  | bool (b : Bool)
  | null
deriving DecidableEq, Repr

/-- A flattened candidate entry of a response (an element of a `value`,
`data` or `results` array, or of an already-flat list response). -/
inductive Cand where
  | prim (p : JPrim)
  | arr (xs : List JPrim)
  | obj (kvs : List (String × JPrim))
deriving DecidableEq, Repr

/-- A value stored under a key of a response object. -/
inductive RVal where
  | prim (p : JPrim)
  | arr (xs : List Cand)
  | obj (kvs : List (String × JPrim))
deriving DecidableEq, Repr

/-- A top-level item of the loaded response file. -/
inductive Resp where
  | prim (p : JPrim)
  | arr (xs : List Cand)
  | obj (kvs : List (String × RVal))
deriving DecidableEq, Repr

/-- Whether the character list `pat` occurs as a contiguous run at the head
of `hay`. -/
def startsWith : List Char → List Char → Bool
  | _, [] => true
  | [], _ :: _ => false
  | h :: hs, p :: ps => h == p && startsWith hs ps

/-- Whether `pat` occurs contiguously anywhere in `hay`: Python's
`pat in hay` for strings. -/
def containsSeq : List Char → List Char → Bool
  | [], pat => pat.isEmpty
  | h :: hs, pat => startsWith (h :: hs) pat || containsSeq hs pat

/-- Value of a digit string, most significant digit first. -/
def digitsVal (cs : List Char) : Nat :=
  cs.foldl (fun n c => n * 10 + (c.toNat - 48)) 0

/-- Split a character list at its first dot, if any. -/
def splitDot : List Char → List Char × Option (List Char)
  | [] => ([], none)
  | c :: rest =>
      if c = '.' then ([], some rest)
      else
        let r := splitDot rest
        (c :: r.1, r.2)

/-- Parse an unsigned decimal literal (`digits`, `digits.digits`,
`digits.`, `.digits`). -/
def parseUnsigned (cs : List Char) : Option ℚ :=
  match splitDot cs with
  | (a, none) =>
      if a ≠ [] ∧ a.all Char.isDigit then some ((digitsVal a : ℚ)) else none
  | (a, some b) =>
      if (a ≠ [] ∨ b ≠ []) ∧ a.all Char.isDigit ∧ b.all Char.isDigit then
        some ((digitsVal a : ℚ) + (digitsVal b : ℚ) / (10 : ℚ) ^ b.length)
      else none

/-- Strip leading and trailing whitespace. -/
def stripSpaces (cs : List Char) : List Char :=
  ((cs.dropWhile Char.isWhitespace).reverse.dropWhile Char.isWhitespace).reverse

/-- Python's `float(s)` on a string, modelled for plain decimal literals
with an optional sign and surrounding whitespace; anything else fails. -/
def parseFloatQ (s : String) : Option ℚ :=
  match stripSpaces s.data with
  | '-' :: rest => (parseUnsigned rest).map (fun q => -q)
  | '+' :: rest => parseUnsigned rest
  | cs => parseUnsigned cs

/-- Python's `float(v)`: numbers pass through, booleans coerce to 0/1,
numeric strings are parsed, everything else raises. -/
def pyFloat (v : JPrim) : Except String ℚ :=
  match v with
  | .num q => .ok q
  | .bool b => .ok (if b then 1 else 0)
  | .str s =>
      match parseFloatQ s with
      | some q => .ok q
      | none => .error "could not convert string to float"
  | .null => .error "float() argument is not a string or a real number"

/-- Python's `str(v)` for the primitive values the loader coerces. -/
def pyStrOf (p : JPrim) : String :=
  match p with
  | .str s => s
  | .num q => toString q
  | .bool b => if b then "True" else "False"
  | .null => "None"

/-- Python's `key in result` on a candidate: key membership for dicts,
substring test for strings, element equality for lists, a `TypeError`
for other primitives. -/
def pyContainsKey (v : Cand) (key : String) : Except String Bool :=
  match v with
  | .obj kvs => .ok ((kvs.map Prod.fst).contains key)
  | .prim (.str s) => .ok (containsSeq s.data key.data)
  | .arr xs => .ok (xs.contains (JPrim.str key))
  | .prim _ => .error "TypeError: argument is not iterable"

/-- `all(key in result for key in ('conversion_id', 'session_id', 'ihc'))`,
with Python's short-circuit evaluation. -/
def hasRequiredKeys (v : Cand) : Except String Bool := do
  let b1 ← pyContainsKey v "conversion_id"
  if !b1 then return false
  let b2 ← pyContainsKey v "session_id"
  if !b2 then return false
  pyContainsKey v "ihc"

/-- Python's `result[key]` on a candidate. -/
def pyGetItem (v : Cand) (key : String) : Except String JPrim :=
  match v with
  | .obj kvs =>
      match kvs.lookup key with
      | some x => .ok x
      | none => .error "KeyError"
  | .prim (.str _) => .error "TypeError: string indices must be integers"
  | .arr _ => .error "TypeError: list indices must be integers"
  | .prim _ => .error "TypeError: object is not subscriptable"

/-- Python's `result.get(key, d)` on a candidate. -/
def pyGetDefault (v : Cand) (key : String) (d : JPrim) : Except String JPrim :=
  match v with
  | .obj kvs => .ok ((kvs.lookup key).getD d)
  | _ => .error "AttributeError: object has no attribute get"

/-- A reconciled attribution record, as persisted into
`attribution_customer_journey`. -/
structure AttributionRecord where
  conv_id : String
  session_id : String
  ihc : ℚ
deriving DecidableEq, Repr

/-- The per-candidate body of the reconciliation loop up to the dedup
check: skip (`ok none`) on a missing required key or an empty coerced id,
propagate the exceptions Python raises, otherwise produce the coerced
record. -/
def coerceCandidate (result : Cand) : Except String (Option AttributionRecord) := do
  let b ← hasRequiredKeys result
  if !b then return none
  let cv ← pyGetItem result "conversion_id"
  let sv ← pyGetItem result "session_id"
  let iv ← pyGetDefault result "ihc" (JPrim.num 0)
  let q ← pyFloat iv
  let conv_id := pyStrOf cv
  let session_id := pyStrOf sv
  if conv_id = "" ∨ session_id = "" then return none
  return some ⟨conv_id, session_id, q⟩

/-- One iteration of the reconciliation loop: state is the `seen` key set
and the accumulated `attribution_data`. -/
def processCandidate (st : List (String × String) × List AttributionRecord) (c : Cand) :
    Except String (List (String × String) × List AttributionRecord) :=
  match coerceCandidate c with
  | .error e => .error e
  | .ok none => .ok st
  | .ok (some entry) =>
      if (entry.conv_id, entry.session_id) ∈ st.1 then .ok st
      else .ok ((entry.conv_id, entry.session_id) :: st.1, st.2 ++ [entry])

/-- The reconciliation loop over the flattened candidate stream. -/
def processCandidates (cs : List Cand) : Except String (List AttributionRecord) :=
  (cs.foldlM processCandidate ([], [])).map Prod.snd

/-- Python iteration over a response field (`valid_responses.extend(x)`):
lists yield their elements, strings their characters, dicts their keys,
other primitives raise. -/
def pyIterObject (v : RVal) : Except String (List Cand) :=
  match v with
  | .arr xs => .ok xs
  | .prim (.str s) => .ok (s.data.map (fun c => Cand.prim (JPrim.str c.toString)))
  | .obj kvs => .ok (kvs.map (fun p => Cand.prim (JPrim.str p.1)))
  | .prim _ => .error "TypeError: object is not iterable"

/-- `response['statusCode'] == 200` on the looked-up value. -/
def statusCodeIs200 (v : RVal) : Bool :=
  match v with
  | .prim (.num q) => q == 200
  | _ => false

/-- The `elif 'data' in response ... elif 'results' in response ...`
branches: error objects and unrecognized objects contribute nothing. -/
def legacyFlatten (kvs : List (String × RVal)) : Except String (List Cand) :=
  match kvs.lookup "data" with
  | some v => pyIterObject v
  | none =>
      match kvs.lookup "results" with
      | some v => pyIterObject v
      | none => .ok []

/-- Candidates contributed by a single response item, following the
classification order of the source. -/
def flattenResponse (r : Resp) : Except String (List Cand) :=
  match r with
  | .obj kvs =>
      match kvs.lookup "statusCode" with
      | some sc =>
          if statusCodeIs200 sc then
            match kvs.lookup "value" with
            | some (.arr l) => .ok l
            | _ => .ok []
          else legacyFlatten kvs
      | none => legacyFlatten kvs
  | .arr xs => .ok xs
  | .prim _ => .ok []

/-- The full flattening loop over all response items. -/
def flattenAll (rs : List Resp) : Except String (List Cand) :=
  rs.foldlM (fun acc r => (flattenResponse r).map (fun l => acc ++ l)) []

/-- The shape category a response item falls into, in the precedence
order of the source's branches. -/
inductive RespKind where
  | success
  | missingValue
  | legacyData
  | legacyResults
  | errorObj
  | invalidStructure
  | flatList
  | invalidType
deriving DecidableEq, Repr

/-- Classification of an object response that is not a status-200
success envelope. -/
def classifyLegacy (kvs : List (String × RVal)) : RespKind :=
  if (kvs.lookup "data").isSome then .legacyData
  else if (kvs.lookup "results").isSome then .legacyResults
  else if (kvs.lookup "error").isSome then .errorObj
  else .invalidStructure

/-- Classification of a response item. -/
def classifyResponse (r : Resp) : RespKind :=
  match r with
  | .obj kvs =>
      match kvs.lookup "statusCode" with
      | some sc =>
          if statusCodeIs200 sc then
            match kvs.lookup "value" with
            | some (.arr _) => .success
            | _ => .missingValue
          else classifyLegacy kvs
      | none => classifyLegacy kvs
  | .arr _ => .flatList
  | .prim _ => .invalidType

/-- Observable outcome of `load_attribution_results`: an exception, an
early return that leaves the store untouched, or a successful run that
upserts the reconciled records. -/
inductive LoadOutcome where
  | fatal (msg : String)
  | noData
  | stored (records : List AttributionRecord)
deriving DecidableEq, Repr

/-- `DataLoader.load_attribution_results`, from the parsed response list
to its outcome (the outer `except` re-raises, so exceptions propagate). -/
def load_attribution_results (api_responses : List Resp) : LoadOutcome :=
  match flattenAll api_responses with
  | .error e => .fatal e
  | .ok valid_responses =>
      if valid_responses = [] then
        .fatal "API response contained no valid attribution data"
      else
        match processCandidates valid_responses with
        | .error e => .fatal e
        | .ok attribution_data =>
            if attribution_data = [] then .noData
            else if (attribution_data.map (fun e => e.ihc)).sum ≤ 0 then
              .fatal "Attribution data contains no valid IHC values"
            else .stored attribution_data

/-- One `INSERT OR REPLACE` into `attribution_customer_journey`
(unique key `(conv_id, session_id)`, replace on conflict). -/
def upsertRecord (tbl : List AttributionRecord) (r : AttributionRecord) :
    List AttributionRecord :=
  tbl.filter (fun t => !(t.conv_id == r.conv_id && t.session_id == r.session_id)) ++ [r]

/-- The `executemany` upsert of a record batch. -/
def upsertAll (tbl : List AttributionRecord) (rs : List AttributionRecord) :
    List AttributionRecord :=
  rs.foldl upsertRecord tbl

/-- Row stored under a `(conv_id, session_id)` key. -/
def lookupKey (tbl : List AttributionRecord) (ck sk : String) :
    Option AttributionRecord :=
  tbl.find? (fun t => t.conv_id == ck && t.session_id == sk)

deriving instance DecidableEq for Except

/-- The dedup key of a record. -/
def keyOf (e : AttributionRecord) : String × String := (e.conv_id, e.session_id)

/-- The Boolean key test used when looking up a `(conv_id, session_id)` key. -/
def keyPred (ck sk : String) (e : AttributionRecord) : Bool :=
  e.conv_id == ck && e.session_id == sk

/-- The validated, coerced candidate stream in encounter order, before
deduplication: the reference stream for first-occurrence-wins. -/
def validEntries : List Cand → Except String (List AttributionRecord)
  | [] => .ok []
  | c :: cs =>
      match coerceCandidate c with
      | .error e => .error e
      | .ok none => validEntries cs
      | .ok (some entry) => (validEntries cs).map (fun v => entry :: v)

/-- Keep the first record of each key, dropping records whose key was
already seen. -/
def dedupFirst : List AttributionRecord → List (String × String) → List AttributionRecord
  | [], _ => []
  | e :: es, seen =>
      if keyOf e ∈ seen then dedupFirst es seen
      else e :: dedupFirst es (keyOf e :: seen)

/-!
The submission loop `IHCApiClient.send_transformed_data`. The network is
modelled as an oracle giving, for each chunk index and attempt index, the
parsed success response (`some r`, HTTP 200/206) or `none` for any
failure (transport error, non-2xx status, or a raise inside the try
block); every failure path increments the attempt counter identically.
-/

def MAX_ATTEMPTS : Nat := 3

/-- The `while attempt < max_attempts and not success` retry loop for one
chunk, with `fuel` remaining attempts: the first successful attempt's
response, if any. -/
def attemptLoop (o : Nat → Option Resp) : Nat → Nat → Option Resp
  | _, 0 => none
  | attempt, fuel + 1 =>
      match o attempt with
      | some r => some r
      | none => attemptLoop o (attempt + 1) fuel

/-- `IHCApiClient.send_transformed_data` from the parsed input data
onward: chunk, submit each chunk with bounded retries, skip empty chunks
and exhausted chunks, fail fatally when no responses were collected.
An empty `conv_type_id` makes every attempt raise before the request. -/
def send_transformed_data (o : Nat → Nat → Option Resp) (data : List JEntry)
    (conv_type_id : String) : Except String (List Resp) :=
  if data = [] then .error "Transformed data is empty or invalid format"
  else
    let chunks := create_chunks data
    let responses := chunks.enum.filterMap (fun p =>
      if p.2 = [] then none
      else if conv_type_id = "" then none
      else attemptLoop (o p.1) 0 MAX_ATTEMPTS)
    if responses = [] then .error "No valid API responses received"
    else .ok responses

/-!
The aggregation query of `ChannelReporting.aggregate_channel_metrics`,
embedded as list-relational operations over the four fact tables. Rows
use `Option` for nullable columns; the `WHERE` clauses and
`COALESCE(NULLIF(...))` defaulting follow the SQL text.
-/

/-- A row of `session_sources` (columns the query reads). -/
structure SessionSource where
  session_id : String
  channel_name : Option String
  event_date : Option String
deriving DecidableEq, Repr

/-- A row of `conversions` (columns the query reads). -/
structure Conversion where
  conv_id : String
  conv_date : String
  revenue : Option ℚ
deriving DecidableEq, Repr

/-- A row of `session_costs` (columns the query reads). -/
structure SessionCost where
  session_id : String
  cost : Option ℚ
deriving DecidableEq, Repr

/-- A row of the `attribution_revenue` CTE. -/
structure ARRow where
  channel_name : String
  date : String
  ihc : ℚ
  attributed_revenue : ℚ
deriving DecidableEq, Repr

/-- A row of the `channel_costs` CTE. -/
structure CCRow where
  channel_name : String
  date : String
  cost : ℚ
deriving DecidableEq, Repr

/-- A row of the final `channel_reporting` result. -/
structure ReportRow where
  channel_name : String
  date : String
  cost : ℚ
  ihc : ℚ
  ihc_revenue : ℚ
deriving DecidableEq, Repr

/-- The `attribution_revenue` CTE: attribution records inner-joined to
their session and conversion; blank channel defaults to `"unknown"`,
blank event date to the conversion date. -/
def attribution_revenue (acjs : List AttributionRecord) (sss : List SessionSource)
    (convs : List Conversion) : List ARRow :=
  acjs.flatMap (fun acj =>
    if acj.session_id = "" then []
    else
      (sss.filter (fun ss => ss.session_id == acj.session_id)).flatMap (fun ss =>
        (convs.filter (fun c => c.conv_id == acj.conv_id)).filterMap (fun c =>
          match ss.channel_name, ss.event_date with
          | some ch, some d =>
              some { channel_name := if ch = "" then "unknown" else ch,
                     date := if d = "" then c.conv_date else d,
                     ihc := acj.ihc,
                     attributed_revenue := c.revenue.getD 0 * acj.ihc }
          | _, _ => none)))

/-- The `channel_costs` CTE: every session left-joined to its cost facts;
blank channel defaults to `"unknown"`, blank event date to the epoch
sentinel `"1970-01-01"`, missing cost to `0`. -/
def channel_costs (sss : List SessionSource) (scs : List SessionCost) : List CCRow :=
  sss.flatMap (fun ss =>
    match ss.channel_name, ss.event_date with
    | some ch, some d =>
        let ms := scs.filter (fun sc => sc.session_id == ss.session_id)
        let costs := if ms = [] then [(0 : ℚ)] else ms.map (fun sc => sc.cost.getD 0)
        costs.map (fun cost =>
          { channel_name := if ch = "" then "unknown" else ch,
            date := if d = "" then "1970-01-01" else d,
            cost := cost })
    | _, _ => [])

/-- Join key of a revenue row. -/
def arKey (a : ARRow) : String × String := (a.channel_name, a.date)

/-- Join key of a cost row. -/
def ccKey (c : CCRow) : String × String := (c.channel_name, c.date)

/-- The join partners of one revenue row in the `LEFT JOIN` of cost rows
onto revenue rows by `(channel_name, date)`: each matching cost row, or a
single unmatched pair when none matches. -/
def joinBlock (ccs : List CCRow) (a : ARRow) : List (ARRow × Option CCRow) :=
  let ms := ccs.filter (fun c => ccKey c == arKey a)
  if ms = [] then [(a, none)] else ms.map (fun c => (a, some c))

/-- The full `LEFT JOIN`. -/
def joinedRows (ars : List ARRow) (ccs : List CCRow) : List (ARRow × Option CCRow) :=
  ars.flatMap (joinBlock ccs)

/-- Lexicographic comparison of character lists, SQLite's BINARY collation
restricted to the ASCII strings the tables hold. -/
def strLtb : List Char → List Char → Bool
  | [], [] => false
  | [], _ :: _ => true
  | _ :: _, [] => false
  | a :: as, b :: bs => if a < b then true else if b < a then false else strLtb as bs

/-- SQL string `<`. -/
def strLt (a b : String) : Bool := strLtb a.data b.data

/-- SQL string `<=`. -/
def strLe (a b : String) : Bool := !(strLt b a)

/-- `SELECT MIN(conv_date) FROM conversions` (NULL on an empty table). -/
def minConvDate : List Conversion → Option String
  | [] => none
  | c :: rest =>
      some (rest.foldl (fun m x => if strLt x.conv_date m then x.conv_date else m) c.conv_date)

/-- The aggregated output row for one group key: `COALESCE(SUM(cc.cost), 0)`,
`COALESCE(SUM(ar.ihc), 0)`, `COALESCE(SUM(ar.attributed_revenue), 0)` over
the joined rows of that key (`SUM` ignores the NULL cost of unmatched
left-join rows). -/
def groupRow (joined : List (ARRow × Option CCRow)) (k : String × String) : ReportRow :=
  { channel_name := k.1, date := k.2,
    cost := (((joined.filter (fun p => arKey p.1 == k)).filterMap
      (fun p => p.2.map (fun c => c.cost))).sum),
    ihc := (((joined.filter (fun p => arKey p.1 == k)).map (fun p => p.1.ihc)).sum),
    ihc_revenue := (((joined.filter (fun p => arKey p.1 == k)).map
      (fun p => p.1.attributed_revenue)).sum) }

/-- The rows the aggregation query produces: one row per distinct group
key, kept only when the `HAVING` clause passes (channel not `"unknown"`
and date not before the minimum conversion date). -/
def channelReportRows (acjs : List AttributionRecord) (sss : List SessionSource)
    (convs : List Conversion) (scs : List SessionCost) : List ReportRow :=
  let ars := attribution_revenue acjs sss convs
  let ccs := channel_costs sss scs
  let joined := joinedRows ars ccs
  let keys := (ars.map arKey).dedup
  keys.filterMap (fun k =>
    match minConvDate convs with
    | none => none
    | some m =>
        if k.1 ≠ "unknown" ∧ strLe m k.2 then some (groupRow joined k) else none)

/-- `ChannelReporting.aggregate_channel_metrics`: the destination table is
cleared and reloaded with the query result; an empty result raises. -/
def aggregate_channel_metrics (acjs : List AttributionRecord) (sss : List SessionSource)
    (convs : List Conversion) (scs : List SessionCost) : Except String (List ReportRow) :=
  let rows := channelReportRows acjs sss convs scs
  if rows = [] then .error "Channel aggregation produced no results" else .ok rows

/-! Capacity invariant of the chunking loop (for C2). -/

/-- The distinct conversion ids of a chunk. -/
def chunkConvs (c : List JEntry) : Finset String :=
  (c.map JEntry.conversion_id).toFinset

/-- A chunk within both capacity limits. -/
def goodChunk (c : List JEntry) : Prop :=
  (chunkConvs c).card ≤ MAX_JOURNEYS_PER_REQUEST ∧ c.length ≤ MAX_SESSIONS_PER_REQUEST

/-- Invariant maintained by `chunkStep` when every group fits the session
cap: emitted chunks are within limits and nonempty, and the counters
bound the chunk under construction. -/
def ChunkInv (st : ChunkState) : Prop :=
  (∀ c ∈ st.chunks, goodChunk c ∧ c ≠ []) ∧
  (chunkConvs st.current_chunk).card ≤ st.current_journeys ∧
  st.current_journeys ≤ MAX_JOURNEYS_PER_REQUEST ∧
  st.current_chunk.length = st.current_sessions ∧
  st.current_sessions ≤ MAX_SESSIONS_PER_REQUEST

/-! Disjointness of conversion ids across chunks (for C2 and C3). -/

/-- Two chunks share no conversion id. -/
def DisjChunks (c₁ c₂ : List JEntry) : Prop :=
  ∀ e₁ ∈ c₁, ∀ e₂ ∈ c₂, e₁.conversion_id ≠ e₂.conversion_id

/-! Content preservation of the chunking loop (for C3). -/

/-- All entries held by a loop state, in order. -/
def joinAll (st : ChunkState) : List JEntry :=
  st.chunks.flatten ++ st.current_chunk

/-! Structural lemmas about the grouping stage. -/

theorem insertGrouped_sound (gs : List (String × List JEntry)) (k : String) (e : JEntry)
    (hgs : ∀ p ∈ gs, ∀ x ∈ p.2, x.conversion_id = p.1) (he : e.conversion_id = k) :
    ∀ p ∈ insertGrouped gs k e, ∀ x ∈ p.2, x.conversion_id = p.1 := by
  induction gs with
  | nil =>
      intro p hp x hx
      simp only [insertGrouped, List.mem_singleton] at hp
      subst hp
      simp only [List.mem_singleton] at hx
      subst hx
      exact he
  | cons q rest ih =>
      obtain ⟨k', es⟩ := q
      intro p hp x hx
      simp only [insertGrouped] at hp
      by_cases hk : k' = k
      · rw [if_pos hk] at hp
        rcases List.mem_cons.mp hp with h | h
        · subst h
          rcases List.mem_append.mp hx with h2 | h2
          · exact hgs (k', es) (List.mem_cons_self _ _) x h2
          · rw [List.mem_singleton.mp h2, he, hk]
        · exact hgs p (List.mem_cons_of_mem _ h) x hx
      · rw [if_neg hk] at hp
        rcases List.mem_cons.mp hp with h | h
        · subst h
          exact hgs (k', es) (List.mem_cons_self _ _) x hx
        · exact ih (fun q hq => hgs q (List.mem_cons_of_mem _ hq)) p h x hx

theorem insertGrouped_keys (gs : List (String × List JEntry)) (k : String) (e : JEntry) :
    (insertGrouped gs k e).map Prod.fst =
      if k ∈ gs.map Prod.fst then gs.map Prod.fst else gs.map Prod.fst ++ [k] := by
  induction gs with
  | nil => simp [insertGrouped]
  | cons q rest ih =>
      obtain ⟨k', es⟩ := q
      by_cases hk : k' = k
      · simp [insertGrouped, hk]
      · have hk' : k ≠ k' := fun h => hk h.symm
        simp only [insertGrouped, if_neg hk, List.map_cons, List.mem_cons, hk']
        rw [ih]
        by_cases hmem : k ∈ rest.map Prod.fst
        · simp [hmem]
        · simp [hmem, hk']

theorem insertGrouped_ne_nil (gs : List (String × List JEntry)) (k : String) (e : JEntry)
    (hgs : ∀ p ∈ gs, p.2 ≠ []) :
    ∀ p ∈ insertGrouped gs k e, p.2 ≠ [] := by
  induction gs with
  | nil =>
      intro p hp
      simp only [insertGrouped, List.mem_singleton] at hp
      subst hp; simp
  | cons q rest ih =>
      obtain ⟨k', es⟩ := q
      intro p hp
      simp only [insertGrouped] at hp
      by_cases hk : k' = k
      · rw [if_pos hk] at hp
        rcases List.mem_cons.mp hp with h | h
        · subst h; simp
        · exact hgs p (List.mem_cons_of_mem _ h)
      · rw [if_neg hk] at hp
        rcases List.mem_cons.mp hp with h | h
        · subst h; exact hgs (k', es) (List.mem_cons_self _ _)
        · exact ih (fun q hq => hgs q (List.mem_cons_of_mem _ hq)) p h

theorem groupFold_sound (data : List JEntry) :
    ∀ (gs : List (String × List JEntry)),
      (∀ p ∈ gs, ∀ x ∈ p.2, x.conversion_id = p.1) →
      ∀ p ∈ data.foldl (fun gs s => insertGrouped gs s.conversion_id s) gs,
        ∀ x ∈ p.2, x.conversion_id = p.1 := by
  induction data with
  | nil => intro gs hgs p hp; exact hgs p hp
  | cons s rest ih =>
      intro gs hgs p hp
      exact ih (insertGrouped gs s.conversion_id s)
        (insertGrouped_sound gs s.conversion_id s hgs rfl) p hp

theorem group_by_sound (data : List JEntry) :
    ∀ p ∈ group_by_conversion_id data, ∀ x ∈ p.2, x.conversion_id = p.1 :=
  groupFold_sound data [] (by simp)

theorem groupFold_keys_nodup (data : List JEntry) :
    ∀ (gs : List (String × List JEntry)),
      (gs.map Prod.fst).Nodup →
      ((data.foldl (fun gs s => insertGrouped gs s.conversion_id s) gs).map Prod.fst).Nodup := by
  induction data with
  | nil => intro gs hgs; exact hgs
  | cons s rest ih =>
      intro gs hgs
      refine ih (insertGrouped gs s.conversion_id s) ?_
      rw [insertGrouped_keys]
      by_cases hmem : s.conversion_id ∈ gs.map Prod.fst
      · simpa [hmem] using hgs
      · simp [hmem, List.nodup_append, hgs]

theorem group_by_keys_nodup (data : List JEntry) :
    ((group_by_conversion_id data).map Prod.fst).Nodup :=
  groupFold_keys_nodup data [] (by simp)

theorem groupFold_ne_nil (data : List JEntry) :
    ∀ (gs : List (String × List JEntry)),
      (∀ p ∈ gs, p.2 ≠ []) →
      ∀ p ∈ data.foldl (fun gs s => insertGrouped gs s.conversion_id s) gs, p.2 ≠ [] := by
  induction data with
  | nil => intro gs hgs p hp; exact hgs p hp
  | cons s rest ih =>
      intro gs hgs p hp
      exact ih (insertGrouped gs s.conversion_id s)
        (insertGrouped_ne_nil gs s.conversion_id s hgs) p hp

theorem group_by_ne_nil (data : List JEntry) :
    ∀ p ∈ group_by_conversion_id data, p.2 ≠ [] :=
  groupFold_ne_nil data [] (by simp)


theorem chunkConvs_append (c₁ c₂ : List JEntry) :
    chunkConvs (c₁ ++ c₂) = chunkConvs c₁ ∪ chunkConvs c₂ := by
  simp [chunkConvs, List.toFinset_append]

theorem chunkConvs_card_le_one (es : List JEntry) (k : String)
    (h : ∀ e ∈ es, e.conversion_id = k) : (chunkConvs es).card ≤ 1 := by
  have hsub : chunkConvs es ⊆ {k} := by
    intro x hx
    simp only [chunkConvs, List.mem_toFinset, List.mem_map] at hx
    obtain ⟨e, he, hex⟩ := hx
    simp [← hex, h e he]
  calc (chunkConvs es).card ≤ ({k} : Finset String).card := Finset.card_le_card hsub
    _ = 1 := Finset.card_singleton k

theorem chunkStep_inv (st : ChunkState) (g : String × List JEntry)
    (hlen : g.2.length ≤ MAX_SESSIONS_PER_REQUEST)
    (hconv : ∀ e ∈ g.2, e.conversion_id = g.1)
    (hinv : ChunkInv st) : ChunkInv (chunkStep st g) := by
  obtain ⟨hchunks, hcard, hj, hlencc, hs⟩ := hinv
  unfold chunkStep
  by_cases hcond : st.current_journeys + 1 > MAX_JOURNEYS_PER_REQUEST ∨
      st.current_sessions + g.2.length > MAX_SESSIONS_PER_REQUEST
  · rw [if_pos hcond]
    refine ⟨?_, ?_, ?_, ?_, ?_⟩
    · intro c hc
      by_cases hcc : st.current_chunk = []
      · rw [if_pos hcc] at hc
        exact hchunks c hc
      · rw [if_neg hcc] at hc
        rcases List.mem_append.mp hc with h | h
        · exact hchunks c h
        · rw [List.mem_singleton.mp h]
          exact ⟨⟨le_trans hcard hj, hlencc ▸ hs⟩, hcc⟩
    · simpa using chunkConvs_card_le_one g.2 g.1 hconv
    · have : (1 : Nat) ≤ MAX_JOURNEYS_PER_REQUEST := by decide
      simpa using this
    · simp
    · simpa using hlen
  · rw [if_neg hcond]
    push_neg at hcond
    refine ⟨hchunks, ?_, ?_, ?_, ?_⟩
    · rw [chunkConvs_append]
      calc (chunkConvs st.current_chunk ∪ chunkConvs g.2).card
          ≤ (chunkConvs st.current_chunk).card + (chunkConvs g.2).card :=
            Finset.card_union_le _ _
        _ ≤ st.current_journeys + 1 :=
            Nat.add_le_add hcard (chunkConvs_card_le_one g.2 g.1 hconv)
    · exact hcond.1
    · simp [hlencc]
    · exact hcond.2

theorem chunkFold_inv (gs : List (String × List JEntry)) (st : ChunkState)
    (hgs : ∀ p ∈ gs, p.2.length ≤ MAX_SESSIONS_PER_REQUEST ∧
      ∀ e ∈ p.2, e.conversion_id = p.1)
    (hinv : ChunkInv st) : ChunkInv (gs.foldl chunkStep st) := by
  induction gs generalizing st with
  | nil => exact hinv
  | cons g rest ih =>
      have hg := hgs g (List.mem_cons_self _ _)
      exact ih (chunkStep st g) (fun p hp => hgs p (List.mem_cons_of_mem _ hp))
        (chunkStep_inv st g hg.1 hg.2 hinv)

theorem create_chunks_inv (data : List JEntry)
    (h : ∀ p ∈ group_by_conversion_id data, p.2.length ≤ MAX_SESSIONS_PER_REQUEST) :
    ∀ c ∈ create_chunks data, goodChunk c ∧ c ≠ [] := by
  have hinv : ChunkInv ((group_by_conversion_id data).foldl chunkStep ⟨[], [], 0, 0⟩) := by
    refine chunkFold_inv _ _ ?_ ?_
    · exact fun p hp => ⟨h p hp, group_by_sound data p hp⟩
    · refine ⟨by simp, ?_, by decide, rfl, by decide⟩
      simp [chunkConvs]
  obtain ⟨hchunks, hcard, hj, hlencc, hs⟩ := hinv
  intro c hc
  unfold create_chunks at hc
  set st := (group_by_conversion_id data).foldl chunkStep ⟨[], [], 0, 0⟩ with hst
  by_cases hcc : st.current_chunk = []
  · rw [if_pos hcc] at hc
    exact hchunks c hc
  · rw [if_neg hcc] at hc
    rcases List.mem_append.mp hc with hmem | hmem
    · exact hchunks c hmem
    · rw [List.mem_singleton.mp hmem]
      exact ⟨⟨le_trans hcard hj, hlencc ▸ hs⟩, hcc⟩

/-- Emitted chunks are never empty (the source appends a chunk only after
an `if current_chunk:` truthiness check), with no size hypothesis. -/
theorem create_chunks_ne_nil (data : List JEntry) :
    ∀ c ∈ create_chunks data, c ≠ [] := by
  have key : ∀ (gs : List (String × List JEntry)) (st : ChunkState),
      (∀ c ∈ st.chunks, c ≠ []) →
      ∀ c ∈ (gs.foldl chunkStep st).chunks, c ≠ [] := by
    intro gs
    induction gs with
    | nil => intro st hst; exact hst
    | cons g rest ih =>
        intro st hst
        refine ih (chunkStep st g) ?_
        intro c hc
        unfold chunkStep at hc
        by_cases hcond : st.current_journeys + 1 > MAX_JOURNEYS_PER_REQUEST ∨
            st.current_sessions + g.2.length > MAX_SESSIONS_PER_REQUEST
        · rw [if_pos hcond] at hc
          simp only at hc
          by_cases hcc : st.current_chunk = []
          · rw [if_pos hcc] at hc
            exact hst c hc
          · rw [if_neg hcc] at hc
            rcases List.mem_append.mp hc with h | h
            · exact hst c h
            · rw [List.mem_singleton.mp h]; exact hcc
        · rw [if_neg hcond] at hc
          exact hst c hc
  intro c hc
  unfold create_chunks at hc
  set st := (group_by_conversion_id data).foldl chunkStep ⟨[], [], 0, 0⟩ with hst
  have hchunks : ∀ c ∈ st.chunks, c ≠ [] := key _ _ (by simp)
  by_cases hcc : st.current_chunk = []
  · rw [if_pos hcc] at hc
    exact hchunks c hc
  · rw [if_neg hcc] at hc
    rcases List.mem_append.mp hc with h | h
    · exact hchunks c h
    · rw [List.mem_singleton.mp h]; exact hcc


theorem chunkFold_disjoint (gs : List (String × List JEntry)) (st : ChunkState)
    (hkeys : (gs.map Prod.fst).Nodup)
    (hmatch : ∀ p ∈ gs, ∀ e ∈ p.2, e.conversion_id = p.1)
    (hdisj : (st.chunks ++ [st.current_chunk]).Pairwise DisjChunks)
    (hfresh : ∀ c ∈ st.chunks ++ [st.current_chunk], ∀ e ∈ c,
      e.conversion_id ∉ gs.map Prod.fst) :
    ((gs.foldl chunkStep st).chunks ++
      [(gs.foldl chunkStep st).current_chunk]).Pairwise DisjChunks := by
  induction gs generalizing st with
  | nil => exact hdisj
  | cons g rest ih =>
      obtain ⟨k, es⟩ := g
      simp only [List.map_cons, List.nodup_cons] at hkeys
      have hes : ∀ e ∈ es, e.conversion_id = k :=
        hmatch (k, es) (List.mem_cons_self _ _)
      -- entries already placed have ids distinct from k and from rest's keys
      have hfreshk : ∀ c ∈ st.chunks ++ [st.current_chunk], ∀ e ∈ c,
          e.conversion_id ≠ k := by
        intro c hc e he
        intro hek
        exact hfresh c hc e he (by simp [hek])
      have hfreshrest : ∀ c ∈ st.chunks ++ [st.current_chunk], ∀ e ∈ c,
          e.conversion_id ∉ rest.map Prod.fst := by
        intro c hc e he hmem
        exact hfresh c hc e he (by simp [hmem])
      rw [List.foldl_cons]
      refine ih (chunkStep st (k, es)) hkeys.2
        (fun p hp => hmatch p (List.mem_cons_of_mem _ hp)) ?_ ?_
      · -- pairwise disjointness is preserved by one step
        unfold chunkStep
        by_cases hcond : st.current_journeys + 1 > MAX_JOURNEYS_PER_REQUEST ∨
            st.current_sessions + es.length > MAX_SESSIONS_PER_REQUEST
        · rw [if_pos hcond]
          simp only
          by_cases hcc : st.current_chunk = []
          · rw [if_pos hcc]
            rw [List.pairwise_append] at hdisj
            rw [List.pairwise_append]
            refine ⟨hdisj.1, by simp [DisjChunks], ?_⟩
            intro c hc b hb e₁ he₁ e₂ he₂
            rw [List.mem_singleton.mp hb] at he₂
            rw [hes e₂ (by simpa using he₂)]
            exact hfreshk c (List.mem_append_left _ hc) e₁ he₁
          · rw [if_neg hcc]
            rw [List.pairwise_append]
            refine ⟨hdisj, by simp [DisjChunks], ?_⟩
            intro c hc b hb e₁ he₁ e₂ he₂
            rw [List.mem_singleton.mp hb] at he₂
            rw [hes e₂ (by simpa using he₂)]
            exact hfreshk c hc e₁ he₁
        · rw [if_neg hcond]
          simp only
          rw [List.pairwise_append] at hdisj
          rw [List.pairwise_append]
          refine ⟨hdisj.1, by simp, ?_⟩
          intro c hc b hb e₁ he₁ e₂ he₂
          rw [List.mem_singleton.mp hb] at he₂
          rcases List.mem_append.mp he₂ with h2 | h2
          · exact hdisj.2.2 c hc st.current_chunk (by simp) e₁ he₁ e₂ h2
          · rw [hes e₂ h2]
            exact hfreshk c (List.mem_append_left _ hc) e₁ he₁
      · -- freshness w.r.t. the remaining keys is preserved by one step
        intro c hc e he
        unfold chunkStep at hc
        by_cases hcond : st.current_journeys + 1 > MAX_JOURNEYS_PER_REQUEST ∨
            st.current_sessions + es.length > MAX_SESSIONS_PER_REQUEST
        · rw [if_pos hcond] at hc
          simp only at hc
          rcases List.mem_append.mp hc with h | h
          · by_cases hcc : st.current_chunk = []
            · rw [if_pos hcc] at h
              exact hfreshrest c (List.mem_append_left _ h) e he
            · rw [if_neg hcc] at h
              rcases List.mem_append.mp h with h' | h'
              · exact hfreshrest c (List.mem_append_left _ h') e he
              · rw [List.mem_singleton.mp h'] at he
                exact hfreshrest st.current_chunk (by simp) e he
          · rw [List.mem_singleton.mp h] at he
            simp only [List.nil_append] at he
            rw [hes e he]
            exact hkeys.1
        · rw [if_neg hcond] at hc
          simp only at hc
          rcases List.mem_append.mp hc with h | h
          · exact hfreshrest c (List.mem_append_left _ h) e he
          · rw [List.mem_singleton.mp h] at he
            rcases List.mem_append.mp he with h' | h'
            · exact hfreshrest st.current_chunk (by simp) e h'
            · rw [hes e h']
              exact hkeys.1

theorem create_chunks_disjoint (data : List JEntry) :
    (create_chunks data).Pairwise DisjChunks := by
  have h := chunkFold_disjoint (group_by_conversion_id data) ⟨[], [], 0, 0⟩
    (group_by_keys_nodup data) (group_by_sound data)
    (by simp [DisjChunks]) (by simp)
  unfold create_chunks
  set st := (group_by_conversion_id data).foldl chunkStep ⟨[], [], 0, 0⟩ with hst
  by_cases hcc : st.current_chunk = []
  · rw [if_pos hcc]
    exact h.sublist (List.sublist_append_left _ _)
  · rw [if_neg hcc]
    exact h


theorem chunkStep_joinAll (st : ChunkState) (g : String × List JEntry) :
    joinAll (chunkStep st g) = joinAll st ++ g.2 := by
  unfold chunkStep joinAll
  by_cases hcond : st.current_journeys + 1 > MAX_JOURNEYS_PER_REQUEST ∨
      st.current_sessions + g.2.length > MAX_SESSIONS_PER_REQUEST
  · rw [if_pos hcond]
    by_cases hcc : st.current_chunk = []
    · simp [hcc]
    · simp [hcc, List.flatten_append, List.append_assoc]
  · rw [if_neg hcond]
    simp [List.append_assoc]

theorem chunkFold_joinAll (gs : List (String × List JEntry)) (st : ChunkState) :
    joinAll (gs.foldl chunkStep st) = joinAll st ++ (gs.map Prod.snd).flatten := by
  induction gs generalizing st with
  | nil => simp
  | cons g rest ih =>
      rw [List.foldl_cons, ih, chunkStep_joinAll]
      simp [List.append_assoc]

theorem create_chunks_flatten (data : List JEntry) :
    (create_chunks data).flatten =
      ((group_by_conversion_id data).map Prod.snd).flatten := by
  unfold create_chunks
  set st := (group_by_conversion_id data).foldl chunkStep ⟨[], [], 0, 0⟩ with hst
  have h : joinAll st = ((group_by_conversion_id data).map Prod.snd).flatten := by
    rw [hst, chunkFold_joinAll]
    simp [joinAll]
  by_cases hcc : st.current_chunk = []
  · rw [if_pos hcc]
    rw [← h]
    simp [joinAll, hcc]
  · rw [if_neg hcc]
    rw [← h]
    simp [joinAll, List.flatten_append]

/-- Entries with a given conversion id across all groups are exactly the
entries of that id's group. -/
theorem groups_countP (gs : List (String × List JEntry)) (k : String) (es : List JEntry)
    (hkeys : (gs.map Prod.fst).Nodup)
    (hmatch : ∀ p ∈ gs, ∀ e ∈ p.2, e.conversion_id = p.1)
    (hg : (k, es) ∈ gs) :
    ((gs.map Prod.snd).flatten).countP (fun e => e.conversion_id == k) = es.length := by
  induction gs with
  | nil => simp at hg
  | cons g rest ih =>
      obtain ⟨k', es'⟩ := g
      simp only [List.map_cons, List.nodup_cons] at hkeys
      simp only [List.map_cons, List.flatten_cons, List.countP_append]
      rcases List.mem_cons.mp hg with h | h
      · -- the group at the head is the one we count
        injection h with h1 h2
        subst h1; subst h2
        have hhead : es.countP (fun e => e.conversion_id == k) = es.length := by
          refine List.countP_eq_length.mpr ?_
          intro e he
          simpa using hmatch (k, es) (List.mem_cons_self _ _) e he
        have htail : ((rest.map Prod.snd).flatten).countP
            (fun e => e.conversion_id == k) = 0 := by
          refine List.countP_eq_zero.mpr ?_
          intro e he
          simp only [List.mem_flatten, List.mem_map] at he
          obtain ⟨l, ⟨p, hp, hpl⟩, hel⟩ := he
          have := hmatch p (List.mem_cons_of_mem _ hp) e (hpl ▸ hel)
          simp only [beq_iff_eq, this]
          intro hpk
          exact hkeys.1 (hpk ▸ List.mem_map_of_mem Prod.fst hp)
        rw [hhead, htail]
        exact Nat.add_zero _
      · -- the group we count sits in the tail; the head contributes nothing
        have hk' : k' ≠ k := by
          intro he
          subst he
          exact hkeys.1 (List.mem_map_of_mem Prod.fst h)
        have hhead : es'.countP (fun e => e.conversion_id == k) = 0 := by
          refine List.countP_eq_zero.mpr ?_
          intro e he
          have := hmatch (k', es') (List.mem_cons_self _ _) e he
          simp [this, hk']
        rw [hhead, ih hkeys.2 (fun p hp => hmatch p (List.mem_cons_of_mem _ hp)) h]
        exact Nat.zero_add _

/-- In a pairwise-disjoint chunk list, all entries of one conversion id
live in a single chunk. -/
theorem disjoint_count_concentrates (cs : List (List JEntry)) (k : String)
    (hpair : cs.Pairwise DisjChunks)
    (hpos : 0 < (cs.flatten).countP (fun e => e.conversion_id == k)) :
    ∃ c ∈ cs, c.countP (fun e => e.conversion_id == k) =
      (cs.flatten).countP (fun e => e.conversion_id == k) := by
  induction cs with
  | nil => simp at hpos
  | cons c rest ih =>
      rw [List.pairwise_cons] at hpair
      by_cases hc : 0 < c.countP (fun e => e.conversion_id == k)
      · obtain ⟨e, he, hek⟩ := List.countP_pos_iff.mp hc
        have htail : ((rest).flatten).countP (fun e => e.conversion_id == k) = 0 := by
          refine List.countP_eq_zero.mpr ?_
          intro e' he'
          simp only [List.mem_flatten] at he'
          obtain ⟨c', hc', hec'⟩ := he'
          have hne := hpair.1 c' hc' e he e' hec'
          simp only [beq_iff_eq] at hek
          simp only [beq_iff_eq]
          intro hk
          exact hne (by rw [hek, hk])
        refine ⟨c, List.mem_cons_self _ _, ?_⟩
        simp [List.countP_append, htail]
      · have hc0 : c.countP (fun e => e.conversion_id == k) = 0 := Nat.eq_zero_of_not_pos hc
        simp only [List.flatten_cons, List.countP_append, hc0, Nat.zero_add] at hpos ⊢
        obtain ⟨c', hc', heq⟩ := ih hpair.2 hpos
        exact ⟨c', List.mem_cons_of_mem _ hc', heq⟩

/-! Replicated input evaluates to a single oversized group (for the C3
witness). -/

theorem groupFold_replicate (n : Nat) (e : JEntry) (es : List JEntry) :
    (List.replicate n e).foldl (fun gs s => insertGrouped gs s.conversion_id s)
      [(e.conversion_id, es)] = [(e.conversion_id, es ++ List.replicate n e)] := by
  induction n generalizing es with
  | zero => simp
  | succ m ih =>
      rw [List.replicate_succ, List.foldl_cons]
      have h1 : insertGrouped [(e.conversion_id, es)] e.conversion_id e =
          [(e.conversion_id, es ++ [e])] := by
        simp [insertGrouped]
      rw [h1, ih]
      simp [List.replicate_succ]

theorem group_by_replicate (n : Nat) (e : JEntry) (hn : n ≠ 0) :
    group_by_conversion_id (List.replicate n e) =
      [(e.conversion_id, List.replicate n e)] := by
  cases n with
  | zero => exact absurd rfl hn
  | succ m =>
      unfold group_by_conversion_id
      rw [List.replicate_succ, List.foldl_cons]
      have h1 : insertGrouped [] e.conversion_id e = [(e.conversion_id, [e])] := rfl
      rw [h1, groupFold_replicate]
      simp [List.replicate_succ]

/-- C2: for every input list of journey entries in which no conversion_id
group exceeds 2750 entries, every chunk returned by `create_chunks` has at
most 85 distinct conversion ids and at most 2750 total entries, and no
conversion id occurs in two different chunks. -/
theorem create_chunks_capacity (data : List JEntry)
    (h : ∀ p ∈ group_by_conversion_id data, p.2.length ≤ MAX_SESSIONS_PER_REQUEST) :
    (∀ c ∈ create_chunks data,
      (chunkConvs c).card ≤ MAX_JOURNEYS_PER_REQUEST ∧
      c.length ≤ MAX_SESSIONS_PER_REQUEST) ∧
    (create_chunks data).Pairwise DisjChunks :=
  ⟨fun c hc => (create_chunks_inv data h c hc).1, create_chunks_disjoint data⟩

theorem create_chunks_capacity_witness :
    (∀ p ∈ group_by_conversion_id [⟨"a", "1"⟩, ⟨"b", "2"⟩, ⟨"a", "3"⟩],
      p.2.length ≤ MAX_SESSIONS_PER_REQUEST) ∧
    ((∀ c ∈ create_chunks [⟨"a", "1"⟩, ⟨"b", "2"⟩, ⟨"a", "3"⟩],
      (chunkConvs c).card ≤ MAX_JOURNEYS_PER_REQUEST ∧
      c.length ≤ MAX_SESSIONS_PER_REQUEST) ∧
    (create_chunks [⟨"a", "1"⟩, ⟨"b", "2"⟩, ⟨"a", "3"⟩]).Pairwise DisjChunks) :=
  ⟨by decide, create_chunks_capacity _ (by decide)⟩

/-- C3: a conversion group larger than 2750 entries is still placed in
full into a single chunk (the capacity check runs only before appending
and a group is never split), so that chunk exceeds the session cap. -/
theorem create_chunks_oversized (data : List JEntry) (k : String) (es : List JEntry)
    (hg : (k, es) ∈ group_by_conversion_id data)
    (hlen : MAX_SESSIONS_PER_REQUEST < es.length) :
    ∃ c ∈ create_chunks data,
      c.countP (fun e => e.conversion_id == k) = es.length ∧
      MAX_SESSIONS_PER_REQUEST < c.length := by
  have htotal : ((create_chunks data).flatten).countP
      (fun e => e.conversion_id == k) = es.length := by
    rw [create_chunks_flatten]
    exact groups_countP _ k es (group_by_keys_nodup data) (group_by_sound data) hg
  have hpos : 0 < ((create_chunks data).flatten).countP
      (fun e => e.conversion_id == k) := by
    rw [htotal]
    exact Nat.lt_of_le_of_lt (Nat.zero_le _) hlen
  obtain ⟨c, hc, hcount⟩ :=
    disjoint_count_concentrates _ k (create_chunks_disjoint data) hpos
  refine ⟨c, hc, by rw [hcount, htotal], ?_⟩
  calc MAX_SESSIONS_PER_REQUEST < es.length := hlen
    _ = c.countP (fun e => e.conversion_id == k) := by rw [hcount, htotal]
    _ ≤ c.length := List.countP_le_length _

theorem create_chunks_oversized_witness :
    (("a", List.replicate 2751 (⟨"a", ""⟩ : JEntry)) ∈
        group_by_conversion_id (List.replicate 2751 (⟨"a", ""⟩ : JEntry)) ∧
      MAX_SESSIONS_PER_REQUEST < (List.replicate 2751 (⟨"a", ""⟩ : JEntry)).length) ∧
    ∃ c ∈ create_chunks (List.replicate 2751 (⟨"a", ""⟩ : JEntry)),
      c.countP (fun e => e.conversion_id == "a") =
        (List.replicate 2751 (⟨"a", ""⟩ : JEntry)).length ∧
      MAX_SESSIONS_PER_REQUEST < c.length :=
  ⟨⟨by rw [group_by_replicate 2751 _ (by decide)]; exact List.mem_singleton.mpr rfl,
    by rw [List.length_replicate]; decide⟩,
   create_chunks_oversized _ "a" _
     (by rw [group_by_replicate 2751 _ (by decide)]; exact List.mem_singleton.mpr rfl)
     (by rw [List.length_replicate]; decide)⟩

/-- C7: with nonempty input data and a nonempty conv_type_id,
`send_transformed_data` fails with "No valid API responses received" iff
no chunk obtains a success within its 3-attempt budget; and when at least
one chunk succeeds it returns the collected responses, skipping exhausted
chunks. -/
theorem send_success_iff (o : Nat → Nat → Option Resp) (data : List JEntry)
    (conv_type_id : String) (hd : data ≠ []) (hc : conv_type_id ≠ "") :
    (send_transformed_data o data conv_type_id =
        .error "No valid API responses received" ↔
      ∀ i < (create_chunks data).length, attemptLoop (o i) 0 MAX_ATTEMPTS = none) ∧
    ((∃ i, i < (create_chunks data).length ∧
        (attemptLoop (o i) 0 MAX_ATTEMPTS).isSome) →
      send_transformed_data o data conv_type_id =
        .ok ((create_chunks data).enum.filterMap
          (fun p => attemptLoop (o p.1) 0 MAX_ATTEMPTS))) := by
  have hchunks := create_chunks_ne_nil data
  have hfm : (create_chunks data).enum.filterMap
      (fun p => if p.2 = [] then none else if conv_type_id = "" then none
        else attemptLoop (o p.1) 0 MAX_ATTEMPTS) =
      (create_chunks data).enum.filterMap
        (fun p => attemptLoop (o p.1) 0 MAX_ATTEMPTS) := by
    apply List.filterMap_congr
    intro p hp
    have h2 : p.2 ∈ create_chunks data := by
      have := List.mem_enum_iff_getElem?.mp hp
      exact List.getElem?_mem this
    rw [if_neg (hchunks p.2 h2), if_neg hc]
  have hiff : ((create_chunks data).enum.filterMap
      (fun p => attemptLoop (o p.1) 0 MAX_ATTEMPTS) = []) ↔
      ∀ i < (create_chunks data).length, attemptLoop (o i) 0 MAX_ATTEMPTS = none := by
    rw [List.filterMap_eq_nil_iff]
    constructor
    · intro h i hi
      refine h (i, (create_chunks data).get ⟨i, hi⟩) ?_
      rw [List.mem_enum_iff_getElem?]
      simp [List.getElem?_eq_getElem hi]
    · intro h p hp
      have h1 : p.1 < (create_chunks data).length := by
        have := List.mem_enum_iff_getElem?.mp hp
        exact (List.getElem?_eq_some.mp this).1
      exact h p.1 h1
  unfold send_transformed_data
  rw [if_neg hd]
  simp only [hfm]
  constructor
  · by_cases hresp : (create_chunks data).enum.filterMap
        (fun p => attemptLoop (o p.1) 0 MAX_ATTEMPTS) = []
    · rw [if_pos hresp]
      simp only [true_iff, hiff.mp hresp]
      tauto
    · rw [if_neg hresp]
      constructor
      · intro h
        exact absurd h (by simp)
      · intro h
        exact absurd (hiff.mpr h) hresp
  · intro ⟨i, hi, hsome⟩
    have hresp : (create_chunks data).enum.filterMap
        (fun p => attemptLoop (o p.1) 0 MAX_ATTEMPTS) ≠ [] := by
      intro hnil
      rw [hiff.mp hnil i hi] at hsome
      simp at hsome
    rw [if_neg hresp]

theorem send_success_iff_witness :
    ([(⟨"a", ""⟩ : JEntry)] ≠ [] ∧ ("t" : String) ≠ "") ∧
    ((send_transformed_data (fun _ _ => some (Resp.prim JPrim.null))
        [⟨"a", ""⟩] "t" = .error "No valid API responses received" ↔
      ∀ i < (create_chunks [(⟨"a", ""⟩ : JEntry)]).length,
        attemptLoop ((fun (_ : Nat) (_ : Nat) => some (Resp.prim JPrim.null)) i) 0
          MAX_ATTEMPTS = none) ∧
    ((∃ i, i < (create_chunks [(⟨"a", ""⟩ : JEntry)]).length ∧
        (attemptLoop ((fun (_ : Nat) (_ : Nat) => some (Resp.prim JPrim.null)) i) 0
          MAX_ATTEMPTS).isSome) →
      send_transformed_data (fun _ _ => some (Resp.prim JPrim.null)) [⟨"a", ""⟩] "t" =
        .ok ((create_chunks [(⟨"a", ""⟩ : JEntry)]).enum.filterMap
          (fun p => attemptLoop ((fun (_ : Nat) (_ : Nat) =>
            some (Resp.prim JPrim.null)) p.1) 0 MAX_ATTEMPTS)))) :=
  ⟨⟨by decide, by decide⟩,
   send_success_iff (fun _ _ => some (Resp.prim JPrim.null)) [⟨"a", ""⟩] "t"
     (by decide) (by decide)⟩

/-! Reconciliation: the loop is validation followed by
first-occurrence-wins deduplication. -/

theorem except_map_congr {α β : Type} {x : Except String α} {f g : α → β}
    (h : ∀ a, f a = g a) : x.map f = x.map g := by
  cases x <;> simp [Except.map, h]

theorem except_map_map {α β γ : Type} (x : Except String α) (f : α → β) (g : β → γ) :
    (x.map f).map g = x.map (fun a => g (f a)) := by
  cases x <;> rfl

theorem processFold_eq (cs : List Cand) :
    ∀ (seen : List (String × String)) (acc : List AttributionRecord),
      (cs.foldlM processCandidate (seen, acc)).map Prod.snd =
        (validEntries cs).map (fun v => acc ++ dedupFirst v seen) := by
  induction cs with
  | nil =>
      intro seen acc
      simp [validEntries, dedupFirst, Except.map, pure, Except.pure]
  | cons c cs ih =>
      intro seen acc
      rw [List.foldlM_cons]
      cases hco : coerceCandidate c with
      | error e =>
          simp [processCandidate, hco, validEntries, Except.map, bind, Except.bind]
      | ok o =>
          cases o with
          | none =>
              have hstep : processCandidate (seen, acc) c = .ok (seen, acc) := by
                simp [processCandidate, hco]
              rw [hstep]
              show (cs.foldlM processCandidate (seen, acc)).map Prod.snd = _
              rw [ih seen acc]
              simp only [validEntries, hco]
          | some entry =>
              by_cases hseen : (entry.conv_id, entry.session_id) ∈ seen
              · have hstep : processCandidate (seen, acc) c = .ok (seen, acc) := by
                  simp [processCandidate, hco, hseen]
                rw [hstep]
                show (cs.foldlM processCandidate (seen, acc)).map Prod.snd = _
                rw [ih seen acc]
                simp only [validEntries, hco]
                rw [except_map_map]
                refine except_map_congr (fun v => ?_)
                have : dedupFirst (entry :: v) seen = dedupFirst v seen := by
                  simp only [dedupFirst, keyOf]
                  rw [if_pos hseen]
                rw [this]
              · have hstep : processCandidate (seen, acc) c =
                    .ok ((entry.conv_id, entry.session_id) :: seen, acc ++ [entry]) := by
                  simp [processCandidate, hco, hseen]
                rw [hstep]
                show (cs.foldlM processCandidate
                  ((entry.conv_id, entry.session_id) :: seen, acc ++ [entry])).map Prod.snd = _
                rw [ih ((entry.conv_id, entry.session_id) :: seen) (acc ++ [entry])]
                simp only [validEntries, hco]
                rw [except_map_map]
                refine except_map_congr (fun v => ?_)
                have : dedupFirst (entry :: v) seen =
                    entry :: dedupFirst v ((entry.conv_id, entry.session_id) :: seen) := by
                  simp only [dedupFirst, keyOf]
                  rw [if_neg hseen]
                rw [this]
                simp

theorem processCandidates_eq (cs : List Cand) :
    processCandidates cs = (validEntries cs).map (fun v => dedupFirst v []) := by
  unfold processCandidates
  rw [processFold_eq cs [] []]
  exact except_map_congr (fun v => by simp)

theorem dedupFirst_keys_nodup (v : List AttributionRecord) :
    ∀ seen, ((dedupFirst v seen).map keyOf).Nodup ∧
      ∀ e ∈ dedupFirst v seen, keyOf e ∉ seen := by
  induction v with
  | nil => intro seen; simp [dedupFirst]
  | cons e es ih =>
      intro seen
      by_cases h : keyOf e ∈ seen
      · simpa [dedupFirst, h] using ih seen
      · simp only [dedupFirst, if_neg h]
        obtain ⟨ih1, ih2⟩ := ih (keyOf e :: seen)
        refine ⟨?_, ?_⟩
        · simp only [List.map_cons, List.nodup_cons]
          refine ⟨?_, ih1⟩
          intro hmem
          obtain ⟨e', he', hke⟩ := List.mem_map.mp hmem
          exact ih2 e' he' (by simp [hke])
        · intro x hx
          rcases List.mem_cons.mp hx with h1 | h1
          · subst h1; exact h
          · intro hxs
            exact ih2 x h1 (List.mem_cons_of_mem _ hxs)

theorem keyPred_iff (e : AttributionRecord) (ck sk : String) :
    keyPred ck sk e = true ↔ keyOf e = (ck, sk) := by
  simp [keyPred, keyOf, Prod.ext_iff]

theorem dedupFirst_find? (v : List AttributionRecord) (ck sk : String) :
    ∀ seen, (ck, sk) ∉ seen →
      (dedupFirst v seen).find? (keyPred ck sk) =
        v.find? (keyPred ck sk) := by
  induction v with
  | nil => intro seen _; simp [dedupFirst]
  | cons e es ih =>
      intro seen hs
      by_cases h : keyOf e ∈ seen
      · have hpe : ¬ (keyPred ck sk e = true) := by
          intro hpe
          exact hs ((keyPred_iff e ck sk).mp hpe ▸ h)
        simp only [dedupFirst, if_pos h]
        rw [List.find?_cons_of_neg _ hpe]
        exact ih seen hs
      · simp only [dedupFirst, if_neg h]
        by_cases hpe : keyPred ck sk e = true
        · rw [List.find?_cons_of_pos _ hpe, List.find?_cons_of_pos _ hpe]
        · rw [List.find?_cons_of_neg _ hpe, List.find?_cons_of_neg _ hpe]
          refine ih _ ?_
          intro hmem
          rcases List.mem_cons.mp hmem with h1 | h1
          · exact hpe ((keyPred_iff e ck sk).mpr h1.symm)
          · exact hs h1

/-- C4: a record set stored by `load_attribution_results` is the validated
candidate stream with first-occurrence-wins deduplication applied across
the concatenated responses at reconciliation time: the stored keys are
distinct and each key's record is the first valid candidate with that key. -/
theorem load_dedup_first_wins (rs : List Resp) (entries : List AttributionRecord)
    (h : load_attribution_results rs = LoadOutcome.stored entries) :
    ∃ cs, flattenAll rs = Except.ok cs ∧
      ∃ valids, validEntries cs = Except.ok valids ∧
        (entries.map keyOf).Nodup ∧
        ∀ ck sk,
          entries.find? (keyPred ck sk) = valids.find? (keyPred ck sk) := by
  unfold load_attribution_results at h
  cases hf : flattenAll rs with
  | error e => rw [hf] at h; simp at h
  | ok cs =>
      rw [hf] at h
      dsimp only at h
      by_cases hcs : cs = []
      · rw [if_pos hcs] at h; simp at h
      · rw [if_neg hcs] at h
        cases hp : processCandidates cs with
        | error e => rw [hp] at h; simp at h
        | ok ad =>
            rw [hp] at h
            dsimp only at h
            by_cases had : ad = []
            · rw [if_pos had] at h; simp at h
            · rw [if_neg had] at h
              by_cases hsum : (ad.map (fun e => e.ihc)).sum ≤ 0
              · rw [if_pos hsum] at h; simp at h
              · rw [if_neg hsum] at h
                simp only [LoadOutcome.stored.injEq] at h
                subst h
                have heq := processCandidates_eq cs
                rw [hp] at heq
                cases hv : validEntries cs with
                | error e => rw [hv] at heq; simp [Except.map] at heq
                | ok valids =>
                    rw [hv] at heq
                    simp only [Except.map, Except.ok.injEq] at heq
                    refine ⟨cs, rfl, valids, hv, ?_, ?_⟩
                    · rw [heq]; exact (dedupFirst_keys_nodup valids []).1
                    · intro ck sk
                      rw [heq]
                      exact dedupFirst_find? valids ck sk [] (by simp)

theorem load_dedup_first_wins_witness :
    (load_attribution_results
      [Resp.obj [("statusCode", RVal.prim (JPrim.num 200)),
                 ("value", RVal.arr
                   [Cand.obj [("conversion_id", JPrim.str "c1"),
                              ("session_id", JPrim.str "s1"),
                              ("ihc", JPrim.num 1)],
                    Cand.obj [("conversion_id", JPrim.str "c1"),
                              ("session_id", JPrim.str "s1"),
                              ("ihc", JPrim.num 5)]])]] =
      LoadOutcome.stored [⟨"c1", "s1", 1⟩]) ∧
    (∃ cs, flattenAll
      [Resp.obj [("statusCode", RVal.prim (JPrim.num 200)),
                 ("value", RVal.arr
                   [Cand.obj [("conversion_id", JPrim.str "c1"),
                              ("session_id", JPrim.str "s1"),
                              ("ihc", JPrim.num 1)],
                    Cand.obj [("conversion_id", JPrim.str "c1"),
                              ("session_id", JPrim.str "s1"),
                              ("ihc", JPrim.num 5)]])]] = Except.ok cs ∧
      ∃ valids, validEntries cs = Except.ok valids ∧
        (([(⟨"c1", "s1", 1⟩ : AttributionRecord)]).map keyOf).Nodup ∧
        ∀ ck sk,
          ([(⟨"c1", "s1", 1⟩ : AttributionRecord)]).find? (keyPred ck sk) =
            valids.find? (keyPred ck sk)) :=
  ⟨by with_unfolding_all rfl,
   load_dedup_first_wins _ [⟨"c1", "s1", 1⟩] (by with_unfolding_all rfl)⟩

/-! Error-handling paths of the loader (C8, C10, C6). -/

theorem legacyFlatten_no_candidates (kvs : List (String × RVal))
    (h : classifyLegacy kvs = RespKind.errorObj ∨
      classifyLegacy kvs = RespKind.invalidStructure) :
    legacyFlatten kvs = .ok [] := by
  unfold classifyLegacy at h
  unfold legacyFlatten
  cases hd : kvs.lookup "data" with
  | some v => rw [hd] at h; simp at h
  | none =>
      rw [hd] at h
      cases hr : kvs.lookup "results" with
      | some v => rw [hr] at h; simp at h
      | none => rfl

theorem flattenResponse_no_candidates (r : Resp)
    (h : classifyResponse r = RespKind.errorObj ∨
      classifyResponse r = RespKind.invalidStructure) :
    flattenResponse r = .ok [] := by
  cases r with
  | prim p => rfl
  | arr xs => simp [classifyResponse] at h
  | obj kvs =>
      unfold classifyResponse at h
      unfold flattenResponse
      dsimp only at h ⊢
      revert h
      cases hsc : kvs.lookup "statusCode" with
      | none =>
          intro h
          dsimp only at h ⊢
          exact legacyFlatten_no_candidates kvs h
      | some sc =>
          intro h
          dsimp only at h ⊢
          by_cases h200 : statusCodeIs200 sc
          · rw [if_pos h200] at h
            exfalso
            revert h
            cases hval : kvs.lookup "value" with
            | none => intro h; simp at h
            | some v => intro h; cases v <;> simp at h
          · rw [if_neg h200] at h
            rw [if_neg h200]
            exact legacyFlatten_no_candidates kvs h

theorem flattenAll_nil (rs : List Resp)
    (h : ∀ r ∈ rs, flattenResponse r = .ok []) : flattenAll rs = .ok [] := by
  unfold flattenAll
  have haux : ∀ (rs' : List Resp), (∀ r ∈ rs', flattenResponse r = .ok []) →
      ∀ (acc : List Cand),
        rs'.foldlM (fun acc r => (flattenResponse r).map (fun l => acc ++ l)) acc =
          .ok acc := by
    intro rs'
    induction rs' with
    | nil => intro _ acc; rfl
    | cons r rest ih =>
        intro hall acc
        rw [List.foldlM_cons, hall r (List.mem_cons_self _ _)]
        show rest.foldlM _ (acc ++ []) = _
        rw [List.append_nil]
        exact ih (fun x hx => hall x (List.mem_cons_of_mem _ hx)) acc
  exact haux rs h []

/-- C8: when every response item is classified as an error object or an
invalid structure, flattening yields zero candidates and the loader raises
the fatal "no valid attribution data" error instead of returning. -/
theorem load_total_failure_fatal (rs : List Resp)
    (h : ∀ r ∈ rs, classifyResponse r = RespKind.errorObj ∨
      classifyResponse r = RespKind.invalidStructure) :
    load_attribution_results rs =
      LoadOutcome.fatal "API response contained no valid attribution data" := by
  have hflat : flattenAll rs = .ok [] :=
    flattenAll_nil rs (fun r hr => flattenResponse_no_candidates r (h r hr))
  unfold load_attribution_results
  rw [hflat]
  rfl

theorem load_total_failure_fatal_witness :
    (∀ r ∈ [Resp.obj [("error", RVal.prim (JPrim.str "boom"))],
            Resp.obj [("note", RVal.prim JPrim.null)]],
      classifyResponse r = RespKind.errorObj ∨
      classifyResponse r = RespKind.invalidStructure) ∧
    load_attribution_results
      [Resp.obj [("error", RVal.prim (JPrim.str "boom"))],
       Resp.obj [("note", RVal.prim JPrim.null)]] =
      LoadOutcome.fatal "API response contained no valid attribution data" :=
  ⟨by decide, load_total_failure_fatal _ (by decide)⟩

theorem validEntries_nil_of_all_skipped (cs : List Cand)
    (h : ∀ c ∈ cs, coerceCandidate c = .ok none) : validEntries cs = .ok [] := by
  induction cs with
  | nil => rfl
  | cons c rest ih =>
      unfold validEntries
      rw [h c (List.mem_cons_self _ _)]
      exact ih (fun x hx => h x (List.mem_cons_of_mem _ hx))

/-- C10: when flattening yields candidates but each one is filtered out by
candidate validation (missing required key or empty coerced id), the loader
logs and returns normally without raising and without writing any row. -/
theorem load_all_filtered_returns (rs : List Resp) (cs : List Cand)
    (hf : flattenAll rs = .ok cs) (hne : cs ≠ [])
    (hall : ∀ c ∈ cs, coerceCandidate c = .ok none) :
    load_attribution_results rs = LoadOutcome.noData := by
  have hv : validEntries cs = .ok [] := validEntries_nil_of_all_skipped cs hall
  have hp : processCandidates cs = .ok [] := by
    rw [processCandidates_eq, hv]; rfl
  unfold load_attribution_results
  rw [hf]
  dsimp only
  rw [if_neg hne, hp]
  rfl

theorem load_all_filtered_returns_witness :
    (flattenAll [Resp.arr [Cand.obj [("conversion_id", JPrim.str "c1")]]] =
        Except.ok [Cand.obj [("conversion_id", JPrim.str "c1")]] ∧
      ([Cand.obj [("conversion_id", JPrim.str "c1")]] : List Cand) ≠ [] ∧
      (∀ c ∈ [Cand.obj [("conversion_id", JPrim.str "c1")]],
        coerceCandidate c = Except.ok none)) ∧
    load_attribution_results [Resp.arr [Cand.obj [("conversion_id", JPrim.str "c1")]]] =
      LoadOutcome.noData :=
  ⟨⟨by decide, by decide, by decide⟩,
   load_all_filtered_returns [Resp.arr [Cand.obj [("conversion_id", JPrim.str "c1")]]]
     [Cand.obj [("conversion_id", JPrim.str "c1")]] (by decide) (by decide) (by decide)⟩

theorem validEntries_ok_of_no_raise (cs : List Cand)
    (h : ∀ c ∈ cs, ∃ o, coerceCandidate c = .ok o) :
    ∃ v, validEntries cs = .ok v := by
  induction cs with
  | nil => exact ⟨[], rfl⟩
  | cons c rest ih =>
      obtain ⟨o, ho⟩ := h c (List.mem_cons_self _ _)
      obtain ⟨v, hv⟩ := ih (fun x hx => h x (List.mem_cons_of_mem _ hx))
      unfold validEntries
      rw [ho]
      cases o with
      | none => exact ⟨v, hv⟩
      | some entry => exact ⟨entry :: v, by rw [hv]; rfl⟩

/-- C6 counterexample: a response set whose failure is confined to a single
candidate entry (one carries the non-numeric ihc `"abc"`, the other is
fully valid) makes `load_attribution_results` raise, because the `float()`
coercion is not guarded per entry. -/
theorem load_single_bad_ihc_raises :
    coerceCandidate (Cand.obj [("conversion_id", JPrim.str "c2"),
      ("session_id", JPrim.str "s2"), ("ihc", JPrim.str "abc")]) =
      .error "could not convert string to float" ∧
    load_attribution_results
      [Resp.obj [("statusCode", RVal.prim (JPrim.num 200)),
                 ("value", RVal.arr
                   [Cand.obj [("conversion_id", JPrim.str "c1"),
                              ("session_id", JPrim.str "s1"),
                              ("ihc", JPrim.num 1)],
                    Cand.obj [("conversion_id", JPrim.str "c2"),
                              ("session_id", JPrim.str "s2"),
                              ("ihc", JPrim.str "abc")]])]] =
      LoadOutcome.fatal "could not convert string to float" :=
  ⟨by decide, by decide⟩

/-- C6 amended: a per-candidate failure is absorbed (skipped and logged)
when it is a missing required key or an empty coerced id; a candidate whose
ihc fails numeric coercion instead aborts the whole load. When no candidate
raises, the only remaining outcomes are the run-level ones: an empty
filtered record set returns normally, a non-positive total ihc is fatal,
and otherwise the records are stored. -/
theorem load_absorbs_skippable (rs : List Resp) (cs : List Cand)
    (hf : flattenAll rs = .ok cs) (hne : cs ≠ [])
    (hok : ∀ c ∈ cs, ∃ o, coerceCandidate c = .ok o) :
    load_attribution_results rs = LoadOutcome.noData ∨
    load_attribution_results rs =
      LoadOutcome.fatal "Attribution data contains no valid IHC values" ∨
    ∃ entries, load_attribution_results rs = LoadOutcome.stored entries := by
  obtain ⟨v, hv⟩ := validEntries_ok_of_no_raise cs hok
  have hp : processCandidates cs = .ok (dedupFirst v []) := by
    rw [processCandidates_eq, hv]; rfl
  unfold load_attribution_results
  rw [hf]
  dsimp only
  rw [if_neg hne, hp]
  dsimp only
  by_cases h1 : dedupFirst v [] = []
  · rw [if_pos h1]
    exact Or.inl rfl
  · rw [if_neg h1]
    by_cases h2 : ((dedupFirst v []).map (fun e => e.ihc)).sum ≤ 0
    · rw [if_pos h2]
      exact Or.inr (Or.inl rfl)
    · rw [if_neg h2]
      exact Or.inr (Or.inr ⟨_, rfl⟩)

theorem load_absorbs_skippable_witness :
    (flattenAll [Resp.arr [Cand.obj [("conversion_id", JPrim.str "c1"),
        ("session_id", JPrim.str "s1"), ("ihc", JPrim.num 1)],
      Cand.obj [("session_id", JPrim.str "s2")]]] =
        .ok [Cand.obj [("conversion_id", JPrim.str "c1"),
          ("session_id", JPrim.str "s1"), ("ihc", JPrim.num 1)],
          Cand.obj [("session_id", JPrim.str "s2")]] ∧
      ([Cand.obj [("conversion_id", JPrim.str "c1"),
          ("session_id", JPrim.str "s1"), ("ihc", JPrim.num 1)],
        Cand.obj [("session_id", JPrim.str "s2")]] : List Cand) ≠ [] ∧
      ∀ c ∈ [Cand.obj [("conversion_id", JPrim.str "c1"),
          ("session_id", JPrim.str "s1"), ("ihc", JPrim.num 1)],
        Cand.obj [("session_id", JPrim.str "s2")]],
        ∃ o, coerceCandidate c = Except.ok o) ∧
    (load_attribution_results [Resp.arr [Cand.obj [("conversion_id", JPrim.str "c1"),
        ("session_id", JPrim.str "s1"), ("ihc", JPrim.num 1)],
      Cand.obj [("session_id", JPrim.str "s2")]]] = LoadOutcome.noData ∨
    load_attribution_results [Resp.arr [Cand.obj [("conversion_id", JPrim.str "c1"),
        ("session_id", JPrim.str "s1"), ("ihc", JPrim.num 1)],
      Cand.obj [("session_id", JPrim.str "s2")]]] =
        LoadOutcome.fatal "Attribution data contains no valid IHC values" ∨
    ∃ entries, load_attribution_results [Resp.arr [Cand.obj [("conversion_id", JPrim.str "c1"),
        ("session_id", JPrim.str "s1"), ("ihc", JPrim.num 1)],
      Cand.obj [("session_id", JPrim.str "s2")]]] = LoadOutcome.stored entries) :=
  ⟨⟨by decide, by decide, by
      intro c hc
      rcases List.mem_cons.mp hc with h | h
      · exact ⟨some ⟨"c1", "s1", 1⟩, by rw [h]; decide⟩
      · rw [List.mem_singleton.mp h]
        exact ⟨none, by decide⟩⟩,
   load_absorbs_skippable
     [Resp.arr [Cand.obj [("conversion_id", JPrim.str "c1"),
        ("session_id", JPrim.str "s1"), ("ihc", JPrim.num 1)],
      Cand.obj [("session_id", JPrim.str "s2")]]]
     [Cand.obj [("conversion_id", JPrim.str "c1"),
        ("session_id", JPrim.str "s1"), ("ihc", JPrim.num 1)],
      Cand.obj [("session_id", JPrim.str "s2")]] (by decide) (by decide) (by
      intro c hc
      rcases List.mem_cons.mp hc with h | h
      · exact ⟨some ⟨"c1", "s1", 1⟩, by rw [h]; decide⟩
      · rw [List.mem_singleton.mp h]
        exact ⟨none, by decide⟩)⟩

/-! The persisted store: replace-on-conflict upsert is last-write-wins
(C5). -/

theorem find?_filter_of_imp {α : Type} (l : List α) (p q : α → Bool)
    (h : ∀ a, p a = true → q a = true) :
    (l.filter q).find? p = l.find? p := by
  induction l with
  | nil => rfl
  | cons a l ih =>
      by_cases hq : q a = true
      · rw [List.filter_cons_of_pos hq]
        by_cases hp : p a = true
        · rw [List.find?_cons_of_pos _ hp, List.find?_cons_of_pos _ hp]
        · rw [List.find?_cons_of_neg _ hp, List.find?_cons_of_neg _ hp]
          exact ih
      · have hp : ¬ p a = true := fun hpa => hq (h a hpa)
        rw [List.filter_cons_of_neg hq, List.find?_cons_of_neg _ hp]
        exact ih

theorem lookupKey_upsert (tbl : List AttributionRecord) (r : AttributionRecord)
    (ck sk : String) :
    lookupKey (upsertRecord tbl r) ck sk =
      if keyPred ck sk r then some r else lookupKey tbl ck sk := by
  show ((tbl.filter _) ++ [r]).find? (keyPred ck sk) = _
  rw [List.find?_append]
  by_cases hp : keyPred ck sk r = true
  · have hnone : (tbl.filter
        (fun t => !(t.conv_id == r.conv_id && t.session_id == r.session_id))).find?
          (keyPred ck sk) = none := by
      rw [List.find?_eq_none]
      intro t ht hpt
      have hq := List.of_mem_filter ht
      simp only [keyPred, Bool.and_eq_true, beq_iff_eq] at hp hpt
      simp only [Bool.not_eq_true', Bool.and_eq_false_iff, beq_eq_false_iff_ne] at hq
      rcases hq with hq | hq
      · exact hq (by rw [hpt.1, hp.1])
      · exact hq (by rw [hpt.2, hp.2])
    rw [hnone, if_pos hp]
    simp [List.find?, hp]
  · rw [if_neg hp]
    have hfr : ([r].find? (keyPred ck sk)) = none := by
      rw [List.find?_eq_none]
      intro t ht
      rw [List.mem_singleton.mp ht]
      exact fun hpt => hp hpt
    rw [hfr]
    have hfilter : (tbl.filter
        (fun t => !(t.conv_id == r.conv_id && t.session_id == r.session_id))).find?
          (keyPred ck sk) = tbl.find? (keyPred ck sk) := by
      refine find?_filter_of_imp tbl _ _ ?_
      intro t hpt
      simp only [keyPred, Bool.and_eq_true, beq_iff_eq] at hpt
      simp only [Bool.not_eq_true', Bool.and_eq_false_iff, beq_eq_false_iff_ne]
      by_cases hcv : t.conv_id = r.conv_id
      · right
        intro hsv
        exact hp (by simp [keyPred, ← hpt.1, ← hpt.2, hcv, hsv])
      · exact Or.inl hcv
    rw [hfilter]
    show (tbl.find? (keyPred ck sk)).or none = tbl.find? (keyPred ck sk)
    cases tbl.find? (keyPred ck sk) <;> rfl

theorem lookupKey_upsertAll_no_match (tbl : List AttributionRecord)
    (rest : List AttributionRecord) (ck sk : String)
    (h : ∀ x ∈ rest, keyPred ck sk x = false) :
    lookupKey (upsertAll tbl rest) ck sk = lookupKey tbl ck sk := by
  induction rest generalizing tbl with
  | nil => rfl
  | cons r rest ih =>
      show lookupKey (upsertAll (upsertRecord tbl r) rest) ck sk = _
      rw [ih (upsertRecord tbl r) (fun x hx => h x (List.mem_cons_of_mem _ hx))]
      rw [lookupKey_upsert]
      rw [if_neg (by rw [h r (List.mem_cons_self _ _)]; simp)]

/-- C5: the persisted attribution table has replace-on-conflict semantics:
after any batch of upserts, a key that was submitted at least once maps to
its latest submission (last write wins). -/
theorem upsert_last_wins (tbl rs : List AttributionRecord) (ck sk : String)
    (h : rs.filter (keyPred ck sk) ≠ []) :
    lookupKey (upsertAll tbl rs) ck sk = (rs.filter (keyPred ck sk)).getLast? := by
  induction rs generalizing tbl with
  | nil => exact absurd rfl h
  | cons r rest ih =>
      show lookupKey (upsertAll (upsertRecord tbl r) rest) ck sk = _
      by_cases hr : keyPred ck sk r = true
      · rw [List.filter_cons_of_pos hr]
        by_cases hrest : rest.filter (keyPred ck sk) = []
        · have hnom : ∀ x ∈ rest, keyPred ck sk x = false := by
            intro x hx
            by_contra hxx
            have : x ∈ rest.filter (keyPred ck sk) :=
              List.mem_filter.mpr ⟨hx, by revert hxx; cases keyPred ck sk x <;> simp⟩
            rw [hrest] at this
            simp at this
          rw [lookupKey_upsertAll_no_match _ _ _ _ hnom, lookupKey_upsert, if_pos hr,
            hrest]
          rfl
        · rw [ih (upsertRecord tbl r) hrest]
          obtain ⟨y, ys, hys⟩ := List.exists_cons_of_ne_nil hrest
          rw [hys, List.getLast?_cons_cons]
      · rw [List.filter_cons_of_neg (by rw [Bool.not_eq_true] at hr; simp [hr])]
        have hrest : rest.filter (keyPred ck sk) ≠ [] := by
          rwa [List.filter_cons_of_neg (by rw [Bool.not_eq_true] at hr; simp [hr])] at h
        exact ih (upsertRecord tbl r) hrest

theorem upsert_last_wins_witness :
    (([⟨"c", "s", 1⟩, ⟨"c", "s", 2⟩] : List AttributionRecord).filter
      (keyPred "c" "s") ≠ []) ∧
    lookupKey (upsertAll [] [⟨"c", "s", 1⟩, ⟨"c", "s", 2⟩]) "c" "s" =
      (([⟨"c", "s", 1⟩, ⟨"c", "s", 2⟩] : List AttributionRecord).filter
        (keyPred "c" "s")).getLast? :=
  ⟨by decide, upsert_last_wins [] [⟨"c", "s", 1⟩, ⟨"c", "s", 2⟩] "c" "s" (by decide)⟩

/-! The aggregation query: mismatched blank-date defaults (C9) and the
fan-out of the final left join (C1). -/

theorem blank_date_two_defaults (acjs : List AttributionRecord)
    (sss : List SessionSource) (convs : List Conversion) (scs : List SessionCost)
    (ss : SessionSource) (acj : AttributionRecord) (c : Conversion) (ch : String)
    (hss : ss ∈ sss) (hdate : ss.event_date = some "")
    (hch : ss.channel_name = some ch)
    (hacj : acj ∈ acjs) (hsid : acj.session_id = ss.session_id)
    (hsne : acj.session_id ≠ "")
    (hc : c ∈ convs) (hcid : c.conv_id = acj.conv_id) :
    (∃ r ∈ channel_costs sss scs,
      r.channel_name = (if ch = "" then "unknown" else ch) ∧ r.date = "1970-01-01") ∧
    (∃ r ∈ attribution_revenue acjs sss convs,
      r.channel_name = (if ch = "" then "unknown" else ch) ∧ r.date = c.conv_date ∧
      r.ihc = acj.ihc) := by
  constructor
  · unfold channel_costs
    by_cases hms : scs.filter (fun sc => sc.session_id == ss.session_id) = []
    · refine ⟨⟨if ch = "" then "unknown" else ch, "1970-01-01", 0⟩, ?_, rfl, rfl⟩
      rw [List.mem_flatMap]
      refine ⟨ss, hss, ?_⟩
      rw [hch, hdate]
      dsimp only
      rw [hms]
      simp
    · obtain ⟨sc0, ms', hms'⟩ := List.exists_cons_of_ne_nil hms
      refine ⟨⟨if ch = "" then "unknown" else ch, "1970-01-01", sc0.cost.getD 0⟩, ?_, rfl, rfl⟩
      rw [List.mem_flatMap]
      refine ⟨ss, hss, ?_⟩
      rw [hch, hdate]
      dsimp only
      rw [hms', if_neg (List.cons_ne_nil sc0 ms')]
      simp
  · unfold attribution_revenue
    refine ⟨⟨if ch = "" then "unknown" else ch, c.conv_date, acj.ihc,
      c.revenue.getD 0 * acj.ihc⟩, ?_, rfl, rfl, rfl⟩
    rw [List.mem_flatMap]
    refine ⟨acj, hacj, ?_⟩
    rw [if_neg hsne]
    rw [List.mem_flatMap]
    refine ⟨ss, List.mem_filter.mpr ⟨hss, by simp [hsid]⟩, ?_⟩
    rw [List.mem_filterMap]
    refine ⟨c, List.mem_filter.mpr ⟨hc, by simp [hcid]⟩, ?_⟩
    rw [hch, hdate]
    simp

theorem blank_date_two_defaults_witness :
    ((⟨"s1", some "A", some ""⟩ : SessionSource) ∈
        [(⟨"s1", some "A", some ""⟩ : SessionSource)] ∧
      (⟨"s1", some "A", some ""⟩ : SessionSource).event_date = some "" ∧
      (⟨"s1", some "A", some ""⟩ : SessionSource).channel_name = some "A" ∧
      (⟨"cv1", "s1", 1⟩ : AttributionRecord) ∈
        [(⟨"cv1", "s1", 1⟩ : AttributionRecord)] ∧
      (⟨"cv1", "s1", 1⟩ : AttributionRecord).session_id =
        (⟨"s1", some "A", some ""⟩ : SessionSource).session_id ∧
      (⟨"cv1", "s1", 1⟩ : AttributionRecord).session_id ≠ "" ∧
      (⟨"cv1", "2023-09-01", some 100⟩ : Conversion) ∈
        [(⟨"cv1", "2023-09-01", some 100⟩ : Conversion)] ∧
      (⟨"cv1", "2023-09-01", some 100⟩ : Conversion).conv_id =
        (⟨"cv1", "s1", 1⟩ : AttributionRecord).conv_id) ∧
    ((∃ r ∈ channel_costs [⟨"s1", some "A", some ""⟩] [⟨"s1", some 5⟩],
      r.channel_name = (if ("A" : String) = "" then "unknown" else "A") ∧
      r.date = "1970-01-01") ∧
    (∃ r ∈ attribution_revenue [⟨"cv1", "s1", 1⟩] [⟨"s1", some "A", some ""⟩]
        [⟨"cv1", "2023-09-01", some 100⟩],
      r.channel_name = (if ("A" : String) = "" then "unknown" else "A") ∧
      r.date = (⟨"cv1", "2023-09-01", some 100⟩ : Conversion).conv_date ∧
      r.ihc = (⟨"cv1", "s1", 1⟩ : AttributionRecord).ihc)) :=
  ⟨⟨by decide, by decide, by decide, by decide, by decide, by decide, by decide, by decide⟩,
   blank_date_two_defaults [⟨"cv1", "s1", 1⟩] [⟨"s1", some "A", some ""⟩]
     [⟨"cv1", "2023-09-01", some 100⟩] [⟨"s1", some 5⟩]
     ⟨"s1", some "A", some ""⟩ ⟨"cv1", "s1", 1⟩ ⟨"cv1", "2023-09-01", some 100⟩ "A"
     (by decide) (by decide) (by decide) (by decide) (by decide) (by decide)
     (by decide) (by decide)⟩

theorem filterMap_some_map {α β : Type} (l : List α) (f : α → β) :
    l.filterMap (fun a => some (f a)) = l.map f := by
  induction l with
  | nil => rfl
  | cons a l ih => simp [List.filterMap_cons, ih]

theorem joinBlock_all_match (ccK : List CCRow) (a : ARRow) (k : String × String)
    (hak : arKey a = k) (hck : ∀ c ∈ ccK, ccKey c = k) :
    joinBlock ccK a =
      if ccK = [] then [(a, none)] else ccK.map (fun c => (a, some c)) := by
  unfold joinBlock
  have hfil : ccK.filter (fun c => ccKey c == arKey a) = ccK := by
    apply List.filter_eq_self.mpr
    intro c hc
    rw [hck c hc, hak]
    simp
  rw [hfil]

theorem joinedRows_filter (ars : List ARRow) (ccs : List CCRow) (k : String × String) :
    (joinedRows ars ccs).filter (fun p => arKey p.1 == k) =
      joinedRows (ars.filter (fun a => arKey a == k))
        (ccs.filter (fun c => ccKey c == k)) := by
  induction ars with
  | nil => rfl
  | cons a rest ih =>
      show ((a :: rest).flatMap (joinBlock ccs)).filter _ = _
      rw [List.flatMap_cons, List.filter_append]
      by_cases ha : (arKey a == k) = true
      · have hak : arKey a = k := by simpa using ha
        have hblockfil : (joinBlock ccs a).filter (fun p => arKey p.1 == k) =
            joinBlock ccs a := by
          apply List.filter_eq_self.mpr
          intro p hp
          have hp1 : p.1 = a := by
            unfold joinBlock at hp
            revert hp
            by_cases hms : ccs.filter (fun c => ccKey c == arKey a) = []
            · rw [hms]
              intro hp
              rw [List.mem_singleton.mp hp]
            · rw [if_neg hms]
              intro hp
              obtain ⟨c, _, hc⟩ := List.mem_map.mp hp
              rw [← hc]
          rw [hp1, hak]
          simp
        have hblocks : joinBlock ccs a = joinBlock (ccs.filter (fun c => ccKey c == k)) a := by
          unfold joinBlock
          have h1 : ccs.filter (fun c => ccKey c == arKey a) =
              ccs.filter (fun c => ccKey c == k) := by
            apply List.filter_congr
            intro c _
            rw [hak]
          have h2 : (ccs.filter (fun c => ccKey c == k)).filter
              (fun c => ccKey c == arKey a) = ccs.filter (fun c => ccKey c == k) := by
            apply List.filter_eq_self.mpr
            intro c hc
            rw [hak]
            exact (List.mem_filter.mp hc).2
          rw [h1, h2]
        have ihu : (rest.flatMap (joinBlock ccs)).filter (fun p => arKey p.1 == k) =
            joinedRows (rest.filter (fun a => arKey a == k))
              (ccs.filter (fun c => ccKey c == k)) := ih
        rw [hblockfil, hblocks, ihu]
        show _ = ((a :: rest).filter (fun a => arKey a == k)).flatMap _
        rw [show (a :: rest).filter (fun a => arKey a == k) =
              a :: rest.filter (fun a => arKey a == k) from List.filter_cons_of_pos ha,
            List.flatMap_cons]
        rfl
      · have hblockfil : (joinBlock ccs a).filter (fun p => arKey p.1 == k) = [] := by
          apply List.filter_eq_nil_iff.mpr
          intro p hp
          have hp1 : p.1 = a := by
            unfold joinBlock at hp
            revert hp
            by_cases hms : ccs.filter (fun c => ccKey c == arKey a) = []
            · rw [hms]
              intro hp
              rw [List.mem_singleton.mp hp]
            · rw [if_neg hms]
              intro hp
              obtain ⟨c, _, hc⟩ := List.mem_map.mp hp
              rw [← hc]
          rw [hp1]
          exact fun hcon => ha hcon
        have ihu : (rest.flatMap (joinBlock ccs)).filter (fun p => arKey p.1 == k) =
            joinedRows (rest.filter (fun a => arKey a == k))
              (ccs.filter (fun c => ccKey c == k)) := ih
        rw [hblockfil, ihu]
        show _ = ((a :: rest).filter (fun a => arKey a == k)).flatMap _
        rw [show (a :: rest).filter (fun a => arKey a == k) =
              rest.filter (fun a => arKey a == k) from List.filter_cons_of_neg ha]
        rfl

theorem joined_cost_sum (k : String × String) (arK : List ARRow) (ccK : List CCRow)
    (hak : ∀ a ∈ arK, arKey a = k) (hck : ∀ c ∈ ccK, ccKey c = k) :
    ((joinedRows arK ccK).filterMap (fun p => p.2.map (fun c => c.cost))).sum =
      (arK.length : ℚ) * ((ccK.map (fun c => c.cost)).sum) := by
  induction arK with
  | nil => simp [joinedRows]
  | cons a rest ih =>
      show (((a :: rest).flatMap (joinBlock ccK)).filterMap _).sum = _
      have ihu : ((rest.flatMap (joinBlock ccK)).filterMap
          (fun p => p.2.map (fun c => c.cost))).sum =
          (rest.length : ℚ) * ((ccK.map (fun c => c.cost)).sum) :=
        ih (fun x hx => hak x (List.mem_cons_of_mem _ hx))
      rw [List.flatMap_cons, List.filterMap_append, List.sum_append,
        joinBlock_all_match ccK a k (hak a (List.mem_cons_self _ _)) hck, ihu]
      by_cases hcc : ccK = []
      · subst hcc
        simp
      · rw [if_neg hcc]
        have hfm : ((ccK.map (fun c => (a, some c))).filterMap
            (fun p => p.2.map (fun c => c.cost))) = ccK.map (fun c => c.cost) := by
          rw [List.filterMap_map]
          show ccK.filterMap (fun c => some c.cost) = _
          exact filterMap_some_map ccK (fun c => c.cost)
        rw [hfm, List.length_cons]
        push_cast
        ring

theorem joined_fst_sum (k : String × String) (arK : List ARRow) (ccK : List CCRow)
    (f : ARRow → ℚ) (hak : ∀ a ∈ arK, arKey a = k) (hck : ∀ c ∈ ccK, ccKey c = k) :
    ((joinedRows arK ccK).map (fun p => f p.1)).sum =
      (if ccK = [] then 1 else (ccK.length : ℚ)) * ((arK.map f).sum) := by
  induction arK with
  | nil => simp [joinedRows]
  | cons a rest ih =>
      show (((a :: rest).flatMap (joinBlock ccK)).map _).sum = _
      have ihu : ((rest.flatMap (joinBlock ccK)).map (fun p => f p.1)).sum =
          (if ccK = [] then 1 else (ccK.length : ℚ)) * ((rest.map f).sum) :=
        ih (fun x hx => hak x (List.mem_cons_of_mem _ hx))
      rw [List.flatMap_cons, List.map_append, List.sum_append,
        joinBlock_all_match ccK a k (hak a (List.mem_cons_self _ _)) hck, ihu]
      by_cases hcc : ccK = []
      · subst hcc
        simp [mul_add]
      · have hmap : ((ccK.map (fun c => (a, some c))).map (fun p => f p.1)).sum =
            (ccK.length : ℚ) * f a := by
          rw [List.map_map]
          show (ccK.map (fun _ => f a)).sum = _
          rw [List.map_const']
          simp [List.sum_replicate, nsmul_eq_mul]
        simp only [if_neg hcc, List.map_cons, List.sum_cons]
        rw [hmap]
        ring

theorem groupRow_sums (ars : List ARRow) (ccs : List CCRow) (k : String × String) :
    groupRow (joinedRows ars ccs) k =
      { channel_name := k.1, date := k.2,
        cost := ((ars.filter (fun a => arKey a == k)).length : ℚ) *
          (((ccs.filter (fun c => ccKey c == k)).map (fun c => c.cost)).sum),
        ihc := (if ccs.filter (fun c => ccKey c == k) = [] then 1
            else ((ccs.filter (fun c => ccKey c == k)).length : ℚ)) *
          (((ars.filter (fun a => arKey a == k)).map (fun a => a.ihc)).sum),
        ihc_revenue := (if ccs.filter (fun c => ccKey c == k) = [] then 1
            else ((ccs.filter (fun c => ccKey c == k)).length : ℚ)) *
          (((ars.filter (fun a => arKey a == k)).map
            (fun a => a.attributed_revenue)).sum) } := by
  have hak : ∀ a ∈ ars.filter (fun a => arKey a == k), arKey a = k := by
    intro a ha
    simpa using (List.mem_filter.mp ha).2
  have hck : ∀ c ∈ ccs.filter (fun c => ccKey c == k), ccKey c = k := by
    intro c hc
    simpa using (List.mem_filter.mp hc).2
  have h1 : ((joinedRows (ars.filter (fun a => arKey a == k))
      (ccs.filter (fun c => ccKey c == k))).filterMap
        (fun p => p.2.map (fun c => c.cost))).sum =
      ((ars.filter (fun a => arKey a == k)).length : ℚ) *
        (((ccs.filter (fun c => ccKey c == k)).map (fun c => c.cost)).sum) :=
    joined_cost_sum k _ _ hak hck
  have h2 : ((joinedRows (ars.filter (fun a => arKey a == k))
      (ccs.filter (fun c => ccKey c == k))).map (fun p => p.1.ihc)).sum =
      (if ccs.filter (fun c => ccKey c == k) = [] then 1
        else ((ccs.filter (fun c => ccKey c == k)).length : ℚ)) *
      (((ars.filter (fun a => arKey a == k)).map (fun a => a.ihc)).sum) :=
    joined_fst_sum k _ _ (fun a => a.ihc) hak hck
  have h3 : ((joinedRows (ars.filter (fun a => arKey a == k))
      (ccs.filter (fun c => ccKey c == k))).map (fun p => p.1.attributed_revenue)).sum =
      (if ccs.filter (fun c => ccKey c == k) = [] then 1
        else ((ccs.filter (fun c => ccKey c == k)).length : ℚ)) *
      (((ars.filter (fun a => arKey a == k)).map (fun a => a.attributed_revenue)).sum) :=
    joined_fst_sum k _ _ (fun a => a.attributed_revenue) hak hck
  unfold groupRow
  rw [joinedRows_filter, h1, h2, h3]

/-- C1 amended: every row the aggregation writes has a channel other than
"unknown" and a date no earlier than the minimum conversion date, but its
sums carry the fan-out of the left join: cost is the sum of the cost facts
for the key multiplied by the number of revenue-fact rows for the key, and
ihc and ihc_revenue are the revenue-side sums multiplied by the number of
cost-fact rows for the key (by one when there are none). -/
theorem aggregate_row_sums (acjs : List AttributionRecord) (sss : List SessionSource)
    (convs : List Conversion) (scs : List SessionCost) (r : ReportRow)
    (hr : r ∈ channelReportRows acjs sss convs scs) :
    r.channel_name ≠ "unknown" ∧
    (∃ m, minConvDate convs = some m ∧ strLe m r.date = true) ∧
    r.cost = (((attribution_revenue acjs sss convs).filter
        (fun a => arKey a == (r.channel_name, r.date))).length : ℚ) *
      ((((channel_costs sss scs).filter
        (fun c => ccKey c == (r.channel_name, r.date))).map (fun c => c.cost)).sum) ∧
    r.ihc = (if (channel_costs sss scs).filter
          (fun c => ccKey c == (r.channel_name, r.date)) = [] then 1
        else (((channel_costs sss scs).filter
          (fun c => ccKey c == (r.channel_name, r.date))).length : ℚ)) *
      ((((attribution_revenue acjs sss convs).filter
        (fun a => arKey a == (r.channel_name, r.date))).map (fun a => a.ihc)).sum) ∧
    r.ihc_revenue = (if (channel_costs sss scs).filter
          (fun c => ccKey c == (r.channel_name, r.date)) = [] then 1
        else (((channel_costs sss scs).filter
          (fun c => ccKey c == (r.channel_name, r.date))).length : ℚ)) *
      ((((attribution_revenue acjs sss convs).filter
        (fun a => arKey a == (r.channel_name, r.date))).map
          (fun a => a.attributed_revenue)).sum) := by
  unfold channelReportRows at hr
  rw [List.mem_filterMap] at hr
  obtain ⟨k, hk, hfk⟩ := hr
  revert hfk
  cases hmin : minConvDate convs with
  | none =>
      intro hfk
      simp at hfk
  | some m =>
      intro hfk
      dsimp only at hfk
      by_cases hcond : k.1 ≠ "unknown" ∧ strLe m k.2
      · rw [if_pos hcond] at hfk
        have hrk : groupRow (joinedRows (attribution_revenue acjs sss convs)
            (channel_costs sss scs)) k = r := by
          simpa using hfk
        have hch : r.channel_name = k.1 := by rw [← hrk]; rfl
        have hdt : r.date = k.2 := by rw [← hrk]; rfl
        have hkk : (r.channel_name, r.date) = k := by
          rw [hch, hdt]
        refine ⟨?_, ⟨m, rfl, ?_⟩, ?_, ?_, ?_⟩
        · rw [hch]; exact hcond.1
        · rw [hdt]; exact hcond.2
        · rw [hkk, ← hrk, groupRow_sums]
        · rw [hkk, ← hrk, groupRow_sums]
        · rw [hkk, ← hrk, groupRow_sums]
      · rw [if_neg hcond] at hfk
        simp at hfk

/-- C1 counterexample data: two attributed sessions on one channel/date,
each with a cost fact, make the final join double every sum: the written
row carries cost 20, ihc 4, revenue 400, while the cost facts sum to 10
and the ihc facts to 2. -/
theorem aggregate_claim_counterexample :
    aggregate_channel_metrics
      [⟨"cv1", "s1", 1⟩, ⟨"cv1", "s2", 1⟩]
      [⟨"s1", some "A", some "2023-09-01"⟩, ⟨"s2", some "A", some "2023-09-01"⟩]
      [⟨"cv1", "2023-09-01", some 100⟩]
      [⟨"s1", some 5⟩, ⟨"s2", some 5⟩] =
      Except.ok [⟨"A", "2023-09-01", 20, 4, 400⟩] ∧
    (((channel_costs
        [⟨"s1", some "A", some "2023-09-01"⟩, ⟨"s2", some "A", some "2023-09-01"⟩]
        [⟨"s1", some 5⟩, ⟨"s2", some 5⟩]).filter
        (fun c => ccKey c == ("A", "2023-09-01"))).map (fun c => c.cost)).sum = 10 ∧
    (((attribution_revenue [⟨"cv1", "s1", 1⟩, ⟨"cv1", "s2", 1⟩]
        [⟨"s1", some "A", some "2023-09-01"⟩, ⟨"s2", some "A", some "2023-09-01"⟩]
        [⟨"cv1", "2023-09-01", some 100⟩]).filter
        (fun a => arKey a == ("A", "2023-09-01"))).map (fun a => a.ihc)).sum = 2 ∧
    (20 : ℚ) ≠ 10 :=
  ⟨by with_unfolding_all rfl, by with_unfolding_all rfl, by with_unfolding_all rfl,
   by norm_num⟩

theorem aggregate_row_sums_witness :
    ((⟨"A", "2023-09-01", 20, 4, 400⟩ : ReportRow) ∈
      channelReportRows [⟨"cv1", "s1", 1⟩, ⟨"cv1", "s2", 1⟩]
        [⟨"s1", some "A", some "2023-09-01"⟩, ⟨"s2", some "A", some "2023-09-01"⟩]
        [⟨"cv1", "2023-09-01", some 100⟩] [⟨"s1", some 5⟩, ⟨"s2", some 5⟩]) ∧
    ((⟨"A", "2023-09-01", 20, 4, 400⟩ : ReportRow).channel_name ≠ "unknown" ∧
    (∃ m, minConvDate [(⟨"cv1", "2023-09-01", some 100⟩ : Conversion)] = some m ∧
      strLe m (⟨"A", "2023-09-01", 20, 4, 400⟩ : ReportRow).date = true) ∧
    (⟨"A", "2023-09-01", 20, 4, 400⟩ : ReportRow).cost =
      (((attribution_revenue [⟨"cv1", "s1", 1⟩, ⟨"cv1", "s2", 1⟩]
        [⟨"s1", some "A", some "2023-09-01"⟩, ⟨"s2", some "A", some "2023-09-01"⟩]
        [⟨"cv1", "2023-09-01", some 100⟩]).filter
        (fun a => arKey a == ((⟨"A", "2023-09-01", 20, 4, 400⟩ : ReportRow).channel_name,
          (⟨"A", "2023-09-01", 20, 4, 400⟩ : ReportRow).date))).length : ℚ) *
      ((((channel_costs
        [⟨"s1", some "A", some "2023-09-01"⟩, ⟨"s2", some "A", some "2023-09-01"⟩]
        [⟨"s1", some 5⟩, ⟨"s2", some 5⟩]).filter
        (fun c => ccKey c == ((⟨"A", "2023-09-01", 20, 4, 400⟩ : ReportRow).channel_name,
          (⟨"A", "2023-09-01", 20, 4, 400⟩ : ReportRow).date))).map
            (fun c => c.cost)).sum) ∧
    (⟨"A", "2023-09-01", 20, 4, 400⟩ : ReportRow).ihc =
      (if (channel_costs
          [⟨"s1", some "A", some "2023-09-01"⟩, ⟨"s2", some "A", some "2023-09-01"⟩]
          [⟨"s1", some 5⟩, ⟨"s2", some 5⟩]).filter
          (fun c => ccKey c == ((⟨"A", "2023-09-01", 20, 4, 400⟩ : ReportRow).channel_name,
            (⟨"A", "2023-09-01", 20, 4, 400⟩ : ReportRow).date)) = [] then 1
        else (((channel_costs
          [⟨"s1", some "A", some "2023-09-01"⟩, ⟨"s2", some "A", some "2023-09-01"⟩]
          [⟨"s1", some 5⟩, ⟨"s2", some 5⟩]).filter
          (fun c => ccKey c == ((⟨"A", "2023-09-01", 20, 4, 400⟩ : ReportRow).channel_name,
            (⟨"A", "2023-09-01", 20, 4, 400⟩ : ReportRow).date))).length : ℚ)) *
      ((((attribution_revenue [⟨"cv1", "s1", 1⟩, ⟨"cv1", "s2", 1⟩]
        [⟨"s1", some "A", some "2023-09-01"⟩, ⟨"s2", some "A", some "2023-09-01"⟩]
        [⟨"cv1", "2023-09-01", some 100⟩]).filter
        (fun a => arKey a == ((⟨"A", "2023-09-01", 20, 4, 400⟩ : ReportRow).channel_name,
          (⟨"A", "2023-09-01", 20, 4, 400⟩ : ReportRow).date))).map
            (fun a => a.ihc)).sum) ∧
    (⟨"A", "2023-09-01", 20, 4, 400⟩ : ReportRow).ihc_revenue =
      (if (channel_costs
          [⟨"s1", some "A", some "2023-09-01"⟩, ⟨"s2", some "A", some "2023-09-01"⟩]
          [⟨"s1", some 5⟩, ⟨"s2", some 5⟩]).filter
          (fun c => ccKey c == ((⟨"A", "2023-09-01", 20, 4, 400⟩ : ReportRow).channel_name,
            (⟨"A", "2023-09-01", 20, 4, 400⟩ : ReportRow).date)) = [] then 1
        else (((channel_costs
          [⟨"s1", some "A", some "2023-09-01"⟩, ⟨"s2", some "A", some "2023-09-01"⟩]
          [⟨"s1", some 5⟩, ⟨"s2", some 5⟩]).filter
          (fun c => ccKey c == ((⟨"A", "2023-09-01", 20, 4, 400⟩ : ReportRow).channel_name,
            (⟨"A", "2023-09-01", 20, 4, 400⟩ : ReportRow).date))).length : ℚ)) *
      ((((attribution_revenue [⟨"cv1", "s1", 1⟩, ⟨"cv1", "s2", 1⟩]
        [⟨"s1", some "A", some "2023-09-01"⟩, ⟨"s2", some "A", some "2023-09-01"⟩]
        [⟨"cv1", "2023-09-01", some 100⟩]).filter
        (fun a => arKey a == ((⟨"A", "2023-09-01", 20, 4, 400⟩ : ReportRow).channel_name,
          (⟨"A", "2023-09-01", 20, 4, 400⟩ : ReportRow).date))).map
            (fun a => a.attributed_revenue)).sum)) :=
  ⟨by
    have h : channelReportRows [⟨"cv1", "s1", 1⟩, ⟨"cv1", "s2", 1⟩]
        [⟨"s1", some "A", some "2023-09-01"⟩, ⟨"s2", some "A", some "2023-09-01"⟩]
        [⟨"cv1", "2023-09-01", some 100⟩] [⟨"s1", some 5⟩, ⟨"s2", some 5⟩] =
        [⟨"A", "2023-09-01", 20, 4, 400⟩] := by with_unfolding_all rfl
    rw [h]
    exact List.mem_singleton.mpr rfl,
   aggregate_row_sums [⟨"cv1", "s1", 1⟩, ⟨"cv1", "s2", 1⟩]
     [⟨"s1", some "A", some "2023-09-01"⟩, ⟨"s2", some "A", some "2023-09-01"⟩]
     [⟨"cv1", "2023-09-01", some 100⟩] [⟨"s1", some 5⟩, ⟨"s2", some 5⟩]
     ⟨"A", "2023-09-01", 20, 4, 400⟩
     (by
       have h : channelReportRows [⟨"cv1", "s1", 1⟩, ⟨"cv1", "s2", 1⟩]
           [⟨"s1", some "A", some "2023-09-01"⟩, ⟨"s2", some "A", some "2023-09-01"⟩]
           [⟨"cv1", "2023-09-01", some 100⟩] [⟨"s1", some 5⟩, ⟨"s2", some 5⟩] =
           [⟨"A", "2023-09-01", 20, 4, 400⟩] := by with_unfolding_all rfl
       rw [h]
       exact List.mem_singleton.mpr rfl)⟩

end MAEF
